import Mathlib

/-!
Verification of the odin-sdk-web session layer against its specification.

The development shallowly embeds the relevant parts of the TypeScript
sources:

* `src/stream.ts` — the MessagePack-RPC transport (`Stream`, `send`,
  `receive`, `receiveResponse`): wire-frame classification and the
  pending-request state machine.
* `src/room.ts` / `src/peer.ts` — the room state machine
  (`roomUpdated`, `removePeer`, `addRemotePeer`, the `connectionState`
  setter, `disconnect`).
* `modules/eyvor-worklet.js` — the decoder ring buffer
  (`DecoderBlock.on_message`, `DecoderBlock.process`, `DecoderBlock.fill`).
* `src/utils.ts` — the user-data helpers `valueToUint8Array` /
  `uint8ArrayToValue` (JSON / UTF-8 round trip).

JavaScript values are modelled explicitly: decoded MessagePack values as
`MVal` (JS numbers as rationals, since JS numbers compare numerically),
`Uint8Array` as `List Nat`, maps as association lists in insertion order,
promise settlement as a ghost log of outcomes, and thrown exceptions as
`Except`.
-/

namespace OdinSdk

-- ===================================================================
-- DEFINITIONS
-- ===================================================================

-- §1  Wire codec model (src/stream.ts, function `receive`)

/-- A decoded MessagePack value as seen by the JavaScript code after
`unpack`.  JS numbers are modelled as rationals (`typeof x === 'number'`
covers integers and fractions alike); `obj` stands for any further
object-typed value (maps, binary data). -/
inductive MVal where
  | nil
  | boolv (b : Bool)
  | num (q : Rat)
  | str (s : String)
  | arr (elems : List MVal)
  | obj
deriving Repr

/-- JS `typeof v === 'number'`. -/
def MVal.isNumber : MVal → Bool
  | .num _ => true
  | _ => false

/-- JS `typeof v === 'string'`. -/
def MVal.isString : MVal → Bool
  | .str _ => true
  | _ => false

/-- JS `v === null`. -/
def MVal.isNil : MVal → Bool
  | .nil => true
  | _ => false

/-- JS `typeof v === 'object'`: true for `null`, arrays and all other
objects; false for numbers, strings and booleans. -/
def MVal.isObjectType : MVal → Bool
  | .nil => true
  | .arr _ => true
  | .obj => true
  | _ => false

/-- Numeric payload of a value already known to be a number. -/
def MVal.getNum : MVal → Rat
  | .num q => q
  | _ => 0

/-- String payload of a value already known to be a string. -/
def MVal.getStr : MVal → String
  | .str s => s
  | _ => ""

/-- The `error` field of a response frame as passed to `receiveResponse`:
`null` becomes `none`, a string becomes `some`. -/
def MVal.getErr : MVal → Option String
  | .str s => some s
  | _ => none

/-- What the transport does with one decoded inbound frame. -/
inductive RxAction where
  | droppedLogged
  | droppedSilent
  | deliverRequest (id : Option Rat) (method : String) (params : MVal)
  | deliverResponse (id : Rat) (error : Option String) (result : MVal)
deriving Repr

/-- Embedding of `receive` (src/stream.ts): the classification of one
decoded inbound frame.  Mirrors the validity checks of the source: the
top-level check (`Array.isArray && length > 0 && typeof message[0] ===
'number'`) logs and drops on failure; each `case` of the `switch` logs
and drops on its shape check; a numeric type tag other than 0, 1, 2
falls through the `switch` without a `default` and is dropped without
logging. -/
def receive : MVal → RxAction
  | .arr (.num tag :: rest) =>
    if tag = 0 then
      -- request: [0, id, method, params]
      match rest with
      | [i, m, p] =>
        if i.isNumber && m.isString && p.isObjectType then
          .deliverRequest (some i.getNum) m.getStr p
        else .droppedLogged
      | _ => .droppedLogged
    else if tag = 1 then
      -- response: [1, id, error, result]
      match rest with
      | [i, e, r] =>
        if i.isNumber && (e.isNil || e.isString) && (r.isNil || r.isObjectType)
            && (e.isNil || r.isNil) then
          .deliverResponse i.getNum e.getErr r
        else .droppedLogged
      | _ => .droppedLogged
    else if tag = 2 then
      -- notification: [2, method, params]
      match rest with
      | [m, p] =>
        if m.isString && p.isObjectType then
          .deliverRequest none m.getStr p
        else .droppedLogged
      | _ => .droppedLogged
    else .droppedSilent
  | .arr (_ :: _) => .droppedLogged
  | _ => .droppedLogged

/-- A well-formed envelope in the sense of the code's acceptance checks:
a sequence whose first element is a numeric type tag in {0,1,2}, with the
exact arity and field types the tag implies (numeric id, string method,
structured params; for a response, a null-or-string error and a
null-or-structured result of which at most one is non-null). -/
def wellFormedEnvelope : MVal → Bool
  | .arr (.num tag :: rest) =>
    if tag = 0 then
      match rest with
      | [i, m, p] => i.isNumber && m.isString && p.isObjectType
      | _ => false
    else if tag = 1 then
      match rest with
      | [i, e, r] =>
        i.isNumber && (e.isNil || e.isString) && (r.isNil || r.isObjectType)
          && (e.isNil || r.isNil)
      | _ => false
    else if tag = 2 then
      match rest with
      | [m, p] => m.isString && p.isObjectType
      | _ => false
    else false
  | _ => false

-- §2  RPC transport pending-request state machine (src/stream.ts:
--     Stream constructor, send, receiveResponse and the timeout handle)

/-- How a pending request's promise is settled; each constructor is one
of the four settle calls in src/stream.ts:
`resolve(result)`, `reject(new Error(error))` on a server error message,
`reject(new Error('timeout at method: ' + method))`, and
`reject(new Error('closed'))` from the websocket close listener. -/
inductive Outcome where
  | success (result : MVal)
  | remoteError (msg : String)
  | timeoutErr (method : String)
  | closedErr
deriving Repr

/-- State of one `Stream`:
`ws` — whether `_websocket` is still non-null;
`requests` — the `_requests` map as an association list in insertion
order (id ↦ method of the pending request);
`timers` — the ids whose timeout handle is currently armed;
`nextId` — the `nextId` counter;
`settled` — ghost log of every settle call performed so far, in order. -/
structure StreamS where
  ws : Bool
  requests : List (Nat × String)
  timers : List Nat
  nextId : Nat
  settled : List (Nat × Outcome)
deriving Repr

/-- `Map.get` on the pending-request table. -/
def lookupReq : List (Nat × String) → Nat → Option String
  | [], _ => none
  | (k, m) :: rest, id => if k = id then some m else lookupReq rest id

/-- `Map.delete` on the pending-request table (keys are unique, so
filtering removes exactly the entry). -/
def eraseReq (l : List (Nat × String)) (id : Nat) : List (Nat × String) :=
  l.filter (fun p => p.1 != id)

/-- The events that can act on a `Stream`: a caller invoking
`request(method, params)`, a valid response frame reaching
`receiveResponse`, an armed timeout handle firing, and the websocket
`close` event firing. -/
inductive StreamEv where
  | send (method : String)
  | response (id : Nat) (error : Option String) (result : MVal)
  | timeoutFire (id : Nat)
  | closeEvt
deriving Repr

/-- One step of the `Stream` state machine, embedding the corresponding
source paths:

* `send`: `request()` increments `nextId` and calls `send`, which throws
  if the websocket is null (no registration), otherwise registers the
  pending request and arms a timeout handle iff the configured timeout
  is positive.
* `response`: `receiveResponse` — if the id is unknown, return; else
  delete the entry, clear its timeout, and resolve or reject depending
  on whether the error field was null.
* `timeoutFire`: the `setTimeout` callback — it can only run for an
  armed handle; it settles (and requests closing of the websocket) only
  if `requests.delete(id)` returned true.
* `closeEvt`: the websocket `close` listener — null the websocket,
  reject every still-pending request with the closed error, clear the
  table (armed timeout handles are *not* cleared here). -/
def stepStream (timeout : Nat) (s : StreamS) : StreamEv → StreamS
  | .send method =>
    if s.ws then
      { s with nextId := s.nextId + 1,
               requests := s.requests ++ [(s.nextId, method)],
               timers := if 0 < timeout then s.timers ++ [s.nextId] else s.timers }
    else
      { s with nextId := s.nextId + 1 }
  | .response id error result =>
    match lookupReq s.requests id with
    | none => s
    | some _ =>
      { s with requests := eraseReq s.requests id,
               timers := s.timers.filter (fun t => t != id),
               settled := s.settled ++ [(id,
                 match error with
                 | none => Outcome.success result
                 | some msg => Outcome.remoteError msg)] }
  | .timeoutFire id =>
    if id ∈ s.timers then
      match lookupReq s.requests id with
      | some method =>
        { s with timers := s.timers.filter (fun t => t != id),
                 requests := eraseReq s.requests id,
                 settled := s.settled ++ [(id, Outcome.timeoutErr method)] }
      | none =>
        { s with timers := s.timers.filter (fun t => t != id) }
    else s
  | .closeEvt =>
    { s with ws := false,
             settled := s.settled ++ s.requests.map (fun p => (p.1, Outcome.closedErr)),
             requests := [] }

/-- A freshly constructed `Stream`. -/
def initStream : StreamS :=
  { ws := true, requests := [], timers := [], nextId := 0, settled := [] }

/-- Run an interleaving of events on a fresh `Stream`. -/
def runStream (timeout : Nat) (evs : List StreamEv) : StreamS :=
  evs.foldl (stepStream timeout) initStream

/-- Invariant of the `Stream` state machine. -/
def StreamInv (timeout : Nat) (s : StreamS) : Prop :=
  (s.requests.map Prod.fst).Nodup ∧
  (s.settled.map Prod.fst).Nodup ∧
  (∀ id ∈ s.settled.map Prod.fst, id ∉ s.requests.map Prod.fst) ∧
  (∀ id ∈ s.requests.map Prod.fst, id < s.nextId) ∧
  (∀ id ∈ s.settled.map Prod.fst, id < s.nextId) ∧
  (0 < timeout → ∀ id ∈ s.requests.map Prod.fst, id ∈ s.timers) ∧
  (s.ws = false → s.requests = [])

-- §3  Room state machine (src/room.ts: roomUpdated, addRemotePeer,
--     removePeer, the connectionState setter, disconnect; src/peer.ts)

/-- `OdinConnectionState`. -/
inductive ConnState where
  | disconnected
  | connecting
  | connected
  | error
deriving DecidableEq, Repr

/-- An `OdinMedia` as far as the room/peer graph is concerned: media id,
owning peer id, remote flag. -/
structure MediaRec where
  id : Nat
  peerId : Nat
  remote : Bool
deriving DecidableEq, Repr

/-- An `OdinPeer`: id, user id, remote flag, the `_freeMediaIds` pool,
the `_activeMedias` map (insertion order) and the `_data` blob. -/
structure PeerM where
  id : Nat
  userId : String
  remote : Bool
  freeMediaIds : List Nat
  medias : List (Nat × MediaRec)
  pdata : List Nat
deriving DecidableEq, Repr

/-- Room-scoped events dispatched on the room's event target. -/
inductive REvent where
  | connectionStateChanged (oldState newState : ConnState)
  | leftEvt
  | joinedEvt
  | peerJoined (peerId : Nat)
  | peerLeft (peerId : Nat)
  | mediaStarted (peerId mediaId : Nat)
  | mediaStopped (peerId mediaId : Nat)
  | roomUserDataChanged
  | peerUserDataChanged (peerId : Nat)
deriving DecidableEq, Repr

/-- An `OdinRoom`: connection state, `_data`, `_customer`, `_user_id`,
`_ownPeer` (undefined until the `Joined` update), `_remotePeers` as an
association list in insertion order, whether `disconnect()` has asked
the room stream to close, and a ghost log of the room-scoped events
dispatched so far. -/
structure RoomM where
  connState : ConnState
  rdata : List Nat
  customer : String
  userId : String
  ownPeer : Option PeerM
  remotePeers : List (Nat × PeerM)
  streamClosed : Bool
  events : List REvent
deriving DecidableEq, Repr

/-- A freshly constructed `OdinRoom` (constructor defaults:
state `disconnected`, empty user data, customer `<no customer>`,
no peers). -/
def initRoom (uid : String) : RoomM :=
  { connState := .disconnected, rdata := [], customer := "<no customer>",
    userId := uid, ownPeer := none, remotePeers := [], streamClosed := false,
    events := [] }

/-- The private `connectionState` setter (src/room.ts:1219): stores the
new state, fires `ConnectionStateChanged{old,new}` iff the value
changed, and additionally fires `Left` when the new value is
`disconnected`. -/
def setConnectionState (r : RoomM) (st : ConnState) : RoomM :=
  let old := r.connState
  let r1 := { r with connState := st }
  if old ≠ st then
    let r2 := { r1 with events := r1.events ++ [REvent.connectionStateChanged old st] }
    if st = ConnState.disconnected then
      { r2 with events := r2.events ++ [REvent.leftEvt] }
    else r2
  else r1

/-- `disconnect()` (src/room.ts:1490): clear the remote peers, close the
room stream, set the state to `disconnected`. -/
def disconnect (r : RoomM) : RoomM :=
  setConnectionState { r with remotePeers := [], streamClosed := true }
    ConnState.disconnected

/-- The room stream's `onclose` handler installed in `join()`
(src/room.ts:1311): set the state to `disconnected`, then run
`disconnect()` (which sets it to `disconnected` again). -/
def roomStreamOnClose (r : RoomM) : RoomM :=
  disconnect (setConnectionState r ConnState.disconnected)

/-- A media entry of a peer snapshot in a `RoomUpdated` payload;
`kindVideo` models `properties?.kind === 'video'`. -/
structure MediaSnapshot where
  id : Nat
  kindVideo : Bool
deriving DecidableEq, Repr

/-- A peer entry of a room snapshot / `PeerJoined` payload. -/
structure PeerSnapshot where
  id : Nat
  userId : String
  medias : List MediaSnapshot
  userData : List Nat
deriving DecidableEq, Repr

/-- The room snapshot carried by a `Joined` update. -/
structure RoomSnapshot where
  customer : String
  userData : List Nat
  peers : List PeerSnapshot
deriving DecidableEq, Repr

/-- One record of a `RoomUpdated` notification.  Fields are optional in
the schema; the code guards them with JS falsiness checks (so a numeric
id of value 0 behaves like an absent field, while arrays and
`Uint8Array`s are truthy even when empty). -/
inductive RoomUpdate where
  | joined (room : Option RoomSnapshot) (ownPeerId : Option Nat)
      (mediaIds : Option (List Nat))
  | userDataChanged (userData : Option (List Nat))
  | peerJoined (peer : Option PeerSnapshot)
  | peerLeft (peerId : Option Nat)
deriving DecidableEq, Repr

/-- `OdinPeer.setFreeMediaIds` (src/peer.ts:103): ignored when the pool
is already non-empty. -/
def setFreeMediaIds (p : PeerM) (ids : List Nat) : PeerM :=
  if p.freeMediaIds.length > 0 then p else { p with freeMediaIds := ids }

/-- `Map.get` on the remote-peer map. -/
def lookupPeer : List (Nat × PeerM) → Nat → Option PeerM
  | [], _ => none
  | (k, p) :: rest, pid => if k = pid then some p else lookupPeer rest pid

/-- `Map.set` on the remote-peer map: replace in place when the key
exists, append otherwise. -/
def mapSetPeer (l : List (Nat × PeerM)) (k : Nat) (v : PeerM) : List (Nat × PeerM) :=
  if (lookupPeer l k).isSome then
    l.map (fun q => if q.1 = k then (k, v) else q)
  else l ++ [(k, v)]

/-- `Map.delete` on the remote-peer map. -/
def erasePeer (l : List (Nat × PeerM)) (k : Nat) : List (Nat × PeerM) :=
  l.filter (fun q => q.1 != k)

/-- The medias constructed for a snapshot peer in `addRemotePeer`
(src/room.ts:1704): medias whose properties mark them as video are
skipped. -/
def snapshotMedias (pid : Nat) (ms : List MediaSnapshot) : List (Nat × MediaRec) :=
  (ms.filter (fun m => !m.kindVideo)).map (fun m => (m.id, ⟨m.id, pid, true⟩))

/-- `addRemotePeer` (src/room.ts:1691): throws when the peer id equals
the own peer's id (and with a TypeError when `_ownPeer` is still
undefined); otherwise builds the peer with its medias and stores it in
`_remotePeers`. -/
def addRemotePeer (r : RoomM) (pid : Nat) (uid : String)
    (medias : List MediaSnapshot) (udata : List Nat) :
    Except String (RoomM × PeerM) :=
  match r.ownPeer with
  | none => .error "TypeError: _ownPeer is undefined"
  | some op =>
    if pid = op.id then .error "Can not add the remote peer with this method"
    else
      let peer : PeerM :=
        { id := pid, userId := uid, remote := true, freeMediaIds := [],
          medias := snapshotMedias pid medias, pdata := udata }
      .ok ({ r with remotePeers := mapSetPeer r.remotePeers pid peer }, peer)

/-- `removePeer` (src/room.ts:1723): no-op when the id is the own peer's
id or not in the remote set; otherwise fires `MediaStopped` per media,
fires `PeerLeft`, and deletes the peer. -/
def removePeer (r : RoomM) (pid : Nat) : Except String RoomM :=
  match r.ownPeer with
  | none => .error "TypeError: _ownPeer is undefined"
  | some op =>
    if pid = op.id then .ok r
    else
      match lookupPeer r.remotePeers pid with
      | none => .ok r
      | some peer =>
        .ok { r with
              events := r.events
                ++ peer.medias.map (fun m => REvent.mediaStopped pid m.2.id)
                ++ [REvent.peerLeft pid],
              remotePeers := erasePeer r.remotePeers pid }

/-- The loop over the snapshot's peer list in the `Joined` branch of
`roomUpdated` (src/room.ts:1546): add each remote peer, fire
`PeerJoined`, then one `MediaStarted` per media. -/
def addPeersLoop (r : RoomM) : List PeerSnapshot → Except String RoomM
  | [] => .ok r
  | ps :: rest =>
    match addRemotePeer r ps.id ps.userId ps.medias ps.userData with
    | .error e => .error e
    | .ok (r1, peer) =>
      let r2 := { r1 with events := r1.events ++ [REvent.peerJoined ps.id]
        ++ peer.medias.map (fun m => REvent.mediaStarted ps.id m.2.id) }
      addPeersLoop r2 rest

/-- `roomUpdated` (src/room.ts:1536): the reducer over one `RoomUpdated`
record.  Missing-field guards are the JS falsiness checks of the source
(`!roomUpdate.own_peer_id` / `!roomUpdate.peer_id` also fire on the
value 0). -/
def roomUpdated (r : RoomM) : RoomUpdate → Except String RoomM
  | .joined room ownPeerId mediaIds =>
    match room, ownPeerId, mediaIds with
    | some snap, some opid, some ids =>
      if opid = 0 then .error "The room update of kind Joined is missing fields."
      else
        let r1 := { r with rdata := snap.userData, customer := snap.customer }
        let ownp := setFreeMediaIds
          { id := opid, userId := r.userId, remote := false, freeMediaIds := [],
            medias := [], pdata := [] } ids
        let r2 := { r1 with ownPeer := some ownp }
        match addPeersLoop r2 snap.peers with
        | .error e => .error e
        | .ok r3 => .ok (setConnectionState r3 ConnState.connected)
    | _, _, _ => .error "The room update of kind Joined is missing fields."
  | .userDataChanged userData =>
    match userData with
    | some d =>
      .ok { r with rdata := d, events := r.events ++ [REvent.roomUserDataChanged] }
    | none => .error "The room update of kind UserDataChanged is missing fields."
  | .peerJoined peer =>
    match peer with
    | some ps =>
      match addRemotePeer r ps.id ps.userId ps.medias ps.userData with
      | .error e => .error e
      | .ok (r1, p) =>
        .ok { r1 with events := r1.events ++ [REvent.peerJoined ps.id]
          ++ p.medias.map (fun m => REvent.mediaStarted ps.id m.2.id) }
    | none => .error "The room update of kind PeerJoined is missing fields."
  | .peerLeft peerId =>
    match peerId with
    | some q =>
      if q = 0 then .error "The room update of kind PeerLeft is missing fields."
      else removePeer r q
    | none => .error "The room update of kind PeerLeft is missing fields."

/-- Number of `Left` events in a log. -/
def countLeft (evs : List REvent) : Nat :=
  (evs.filter (fun e => e == REvent.leftEvt)).length

/-- Number of `PeerLeft{pid}` events in a log. -/
def countPeerLeft (pid : Nat) (evs : List REvent) : Nat :=
  (evs.filter (fun e => e == REvent.peerLeft pid)).length

-- §4  Decoder ring buffer (modules/eyvor-worklet.js, class DecoderBlock)

/-- `DefaultNumBuffers` — the number of ring slots N. -/
def DefaultNumBuffers : Nat := 3

/-- `RenderQuantum` — samples consumed per `process` call. -/
def RenderQuantum : Nat := 128

/-- `SamplesSize` — samples per decoded block per channel. -/
def SamplesSize : Nat := 960

/-- State of the `DecoderBlock` processor plus ghost instrumentation:
`bufIndex`/`bufOffset` are `buffer_index`/`buffer_offset`; `slots` is
`this.buffers`, where `some i` records that the slot holds the block the
codec decoded for logical index `i` (block payloads are tagged by the
index they were produced for); `requested` is the multiset of `decode`
requests posted to the codec context and not yet answered; `reads` logs
each fill span as (logical index consumed, slot content at that moment —
`none` meaning the span was silence-substituted); `overwrites` counts
stores into a slot that still held a block. -/
structure RingS where
  bufIndex : Nat
  bufOffset : Nat
  slots : List (Option Nat)
  requested : List Nat
  alive : Bool
  reads : List (Nat × Option Nat)
  overwrites : Nat
deriving DecidableEq, Repr

/-- The slot the renderer will read next (`buffers[buffer_index % N]`). -/
def slotAt (s : RingS) : Option Nat :=
  s.slots.getD (s.bufIndex % DefaultNumBuffers) none

/-- Events acting on the `DecoderBlock`: a `samples` message from the
codec context (carrying the block for logical index `i`), the `stop`
control message, and one `process` callback of the renderer. -/
inductive RingEv where
  | samplesMsg (i : Nat)
  | stopMsg
  | procStep
deriving DecidableEq, Repr

/-- One step of the `DecoderBlock`:

* `samplesMsg i` — `on_message` on a `samples` event: the block is
  stored into `buffers[i % N]` only when `i >= buffer_index`; a stale
  index is discarded (the only enforcement is this index comparison).
* `stopMsg` — `alive = false`.
* `procStep` — `process`: fill from the current slot over
  `[buffer_offset, min(buffer_offset+128, 960))`; on exhausting the
  960-sample block, post `decode` for `buffer_index + N`, clear the
  slot, advance the index, and fill the leftover span from the new
  current slot. -/
def ringStep (s : RingS) : RingEv → RingS
  | .samplesMsg i =>
    if s.bufIndex ≤ i then
      { s with
        requested := s.requested.erase i,
        slots := s.slots.set (i % DefaultNumBuffers) (some i),
        overwrites := s.overwrites +
          (if s.slots.getD (i % DefaultNumBuffers) none ≠ none then 1 else 0) }
    else { s with requested := s.requested.erase i }
  | .stopMsg => { s with alive := false }
  | .procStep =>
    let start := s.bufOffset
    let e := min (start + RenderQuantum) SamplesSize
    let s1 := { s with reads := s.reads ++ [(s.bufIndex, slotAt s)] }
    if e = SamplesSize then
      let s2 := { s1 with
        requested := s1.requested ++ [s1.bufIndex + DefaultNumBuffers] }
      let left := start + RenderQuantum - SamplesSize
      let s3 := { s2 with
        slots := s2.slots.set (s2.bufIndex % DefaultNumBuffers) none,
        bufOffset := left,
        bufIndex := s2.bufIndex + 1 }
      if 0 < left then { s3 with reads := s3.reads ++ [(s3.bufIndex, slotAt s3)] }
      else s3
    else { s1 with bufOffset := e }

/-- A freshly constructed `DecoderBlock` (index 0, offset 0, all slots
null), with `reqs` the decode indices the codec context has been primed
to produce (the producer only ever writes indices the consumer side has
requested; at start these are indices of the first ring, `< N`). -/
def initRing (reqs : List Nat) : RingS :=
  { bufIndex := 0, bufOffset := 0,
    slots := List.replicate DefaultNumBuffers none,
    requested := reqs, alive := true, reads := [], overwrites := 0 }

/-- Run a ring-buffer event interleaving. -/
def runRing (reqs : List Nat) (evs : List RingEv) : RingS :=
  evs.foldl ringStep (initRing reqs)

/-- Guard of the producer discipline for one event: a `samples` message
only ever delivers an index that the consumer side has requested. -/
def evGuard (s : RingS) : RingEv → Bool
  | .samplesMsg i => s.requested.contains i
  | _ => true

/-- Producer discipline over a whole interleaving (each request is
answered at most once, since delivery consumes it). -/
def validEvents : RingS → List RingEv → Bool
  | _, [] => true
  | s, e :: rest => evGuard s e && validEvents (ringStep s e) rest

/-- Invariant of the decoder ring buffer. -/
def RingInv (s : RingS) : Prop :=
  s.slots.length = DefaultNumBuffers ∧
  (∀ k i, s.slots.getD k none = some i →
    i % DefaultNumBuffers = k ∧ s.bufIndex ≤ i ∧
    i < s.bufIndex + DefaultNumBuffers ∧ i ∉ s.requested) ∧
  (∀ i ∈ s.requested, i < s.bufIndex + DefaultNumBuffers) ∧
  s.requested.Nodup ∧
  s.bufOffset < SamplesSize ∧
  s.overwrites = 0 ∧
  (∀ p ∈ s.reads, ∀ i, p.2 = some i → i = p.1)

/-- A concrete `DecoderBlock` state about to exhaust an empty slot
(offset 832, so the next `process` reaches sample 960). -/
def ringExhaustEx : RingS :=
  { bufIndex := 0, bufOffset := 832, slots := [none, none, none],
    requested := [], alive := true, reads := [], overwrites := 0 }

-- §5  User-data helpers (src/utils.ts: valueToUint8Array /
--     uint8ArrayToValue).  The platform collaborators JSON.stringify,
--     JSON.parse, TextEncoder and TextDecoder are modelled explicitly:
--     JSON values as `JVal` (numbers restricted to integers, since
--     binony floating point is outside the embedding), JS text as Lean
--     strings of unicode scalars, bytes as `List Nat`.

/-- A JSON value.  Numbers are modelled as integers; `obj` fields are in
insertion order as a JS object would hold them. -/
inductive JVal where
  | null
  | boolv (b : Bool)
  | num (n : Int)
  | str (s : String)
  | arr (xs : List JVal)
  | obj (fs : List (String × JVal))
deriving Repr

/-- Decimal digit character. -/
def digitChar : Nat → Char
  | 0 => '0'
  | 1 => '1'
  | 2 => '2'
  | 3 => '3'
  | 4 => '4'
  | 5 => '5'
  | 6 => '6'
  | 7 => '7'
  | 8 => '8'
  | 9 => '9'
  | _ => '*'

/-- Lowercase hex digit character (as `JSON.stringify` emits in
`\u00XX` escapes). -/
def hexDigitChar : Nat → Char
  | 0 => '0'
  | 1 => '1'
  | 2 => '2'
  | 3 => '3'
  | 4 => '4'
  | 5 => '5'
  | 6 => '6'
  | 7 => '7'
  | 8 => '8'
  | 9 => '9'
  | 10 => 'a'
  | 11 => 'b'
  | 12 => 'c'
  | 13 => 'd'
  | 14 => 'e'
  | 15 => 'f'
  | _ => '*'

/-- JSON whitespace. -/
def isWs (c : Char) : Bool :=
  c.toNat == 32 || c.toNat == 9 || c.toNat == 10 || c.toNat == 13

/-- ASCII decimal digit. -/
def isDigit (c : Char) : Bool :=
  Nat.ble 48 c.toNat && Nat.ble c.toNat 57

/-- One character of `JSON.stringify`'s string quoting: the `\"`, `\\`,
`\n`, `\t`, `\r`, `\b`, `\f` shortcuts, `\u00XX` for other control
characters, everything else verbatim. -/
def escapeChar (c : Char) : List Char :=
  if c = '"' then ['\\', '"']
  else if c = '\\' then ['\\', '\\']
  else if c = '\n' then ['\\', 'n']
  else if c = '\t' then ['\\', 't']
  else if c = '\r' then ['\\', 'r']
  else if c = '\x08' then ['\\', 'b']
  else if c = '\x0c' then ['\\', 'f']
  else if c.toNat < 32 then
    ['\\', 'u', '0', '0', hexDigitChar (c.toNat / 16), hexDigitChar (c.toNat % 16)]
  else [c]

/-- `JSON.stringify`'s quoting of a string body. -/
def escapeString : List Char → List Char
  | [] => []
  | c :: cs => escapeChar c ++ escapeString cs

/-- Decimal digits of a natural number, most significant first. -/
def natToChars (n : Nat) : List Char :=
  if h : n < 10 then [digitChar n]
  else natToChars (n / 10) ++ [digitChar (n % 10)]
termination_by n
decreasing_by exact Nat.div_lt_self (by omega) (by omega)

/-- `JSON.stringify` of an integer number. -/
def intToChars : Int → List Char
  | .ofNat m => natToChars m
  | .negSucc m => '-' :: natToChars (m + 1)

mutual

/-- `JSON.stringify` (no indentation: no whitespace is emitted). -/
def stringifyV : JVal → List Char
  | .null => ['n', 'u', 'l', 'l']
  | .boolv true => ['t', 'r', 'u', 'e']
  | .boolv false => ['f', 'a', 'l', 's', 'e']
  | .num n => intToChars n
  | .str s => '"' :: (escapeString s.data ++ ['"'])
  | .arr xs => '[' :: (stringifyArr xs ++ [']'])
  | .obj fs => '\x7b' :: (stringifyObj fs ++ ['\x7d'])

/-- Comma-separated stringified array elements. -/
def stringifyArr : List JVal → List Char
  | [] => []
  | [x] => stringifyV x
  | x :: y :: rest => stringifyV x ++ ',' :: stringifyArr (y :: rest)

/-- Comma-separated stringified object fields (`"key":value`). -/
def stringifyObj : List (String × JVal) → List Char
  | [] => []
  | [(k, v)] => '"' :: (escapeString k.data ++ '"' :: ':' :: stringifyV v)
  | (k, v) :: f :: rest =>
    '"' :: (escapeString k.data ++ '"' :: ':' :: stringifyV v)
      ++ ',' :: stringifyObj (f :: rest)

end

/-- Skip JSON whitespace. -/
def skipWs : List Char → List Char
  | [] => []
  | c :: cs => if isWs c then skipWs cs else c :: cs

/-- Hex digit value. -/
def parseHex (c : Char) : Option Nat :=
  if 48 ≤ c.toNat ∧ c.toNat ≤ 57 then some (c.toNat - 48)
  else if 97 ≤ c.toNat ∧ c.toNat ≤ 102 then some (c.toNat - 87)
  else if 65 ≤ c.toNat ∧ c.toNat ≤ 70 then some (c.toNat - 55)
  else none

/-- Parse a JSON string body after the opening quote, returning the
content and the input after the closing quote. -/
def parseStringBody : List Char → Option (List Char × List Char)
  | [] => none
  | c :: rest =>
    if c = '"' then some ([], rest)
    else if c = '\\' then
      match rest with
      | [] => none
      | e :: rest2 =>
        if e = '"' then (parseStringBody rest2).map (fun p => ('"' :: p.1, p.2))
        else if e = '\\' then (parseStringBody rest2).map (fun p => ('\\' :: p.1, p.2))
        else if e = '/' then (parseStringBody rest2).map (fun p => ('/' :: p.1, p.2))
        else if e = 'n' then (parseStringBody rest2).map (fun p => ('\n' :: p.1, p.2))
        else if e = 't' then (parseStringBody rest2).map (fun p => ('\t' :: p.1, p.2))
        else if e = 'r' then (parseStringBody rest2).map (fun p => ('\r' :: p.1, p.2))
        else if e = 'b' then (parseStringBody rest2).map (fun p => ('\x08' :: p.1, p.2))
        else if e = 'f' then (parseStringBody rest2).map (fun p => ('\x0c' :: p.1, p.2))
        else if e = 'u' then
          match rest2 with
          | h1 :: h2 :: h3 :: h4 :: rest3 =>
            match parseHex h1, parseHex h2, parseHex h3, parseHex h4 with
            | some a, some b, some c2, some d =>
              (parseStringBody rest3).map
                (fun p => (Char.ofNat (((a * 16 + b) * 16 + c2) * 16 + d) :: p.1, p.2))
            | _, _, _, _ => none
          | _ => none
        else none
    else (parseStringBody rest).map (fun p => (c :: p.1, p.2))

/-- Greedy digit consumption with accumulator. -/
def parseDigits (acc : Nat) : List Char → Nat × List Char
  | [] => (acc, [])
  | c :: cs =>
    if isDigit c then parseDigits (acc * 10 + (c.toNat - 48)) cs
    else (acc, c :: cs)

/-- Parse a JSON integer (optional minus sign, digits). -/
def parseNumber : List Char → Option (Int × List Char)
  | [] => none
  | c :: cs =>
    if c = '-' then
      match cs with
      | [] => none
      | c2 :: _ =>
        if isDigit c2 then
          let p := parseDigits 0 cs
          some (-(p.1 : Int), p.2)
        else none
    else if isDigit c then
      let p := parseDigits 0 (c :: cs)
      some ((p.1 : Int), p.2)
    else none

mutual

/-- Recursive-descent JSON value parser (fuel-indexed). -/
def parseV : Nat → List Char → Option (JVal × List Char)
  | 0, _ => none
  | fuel + 1, cs =>
    match skipWs cs with
    | [] => none
    | c :: rest =>
      if c = 'n' then
        match rest with
        | 'u' :: 'l' :: 'l' :: rest2 => some (.null, rest2)
        | _ => none
      else if c = 't' then
        match rest with
        | 'r' :: 'u' :: 'e' :: rest2 => some (.boolv true, rest2)
        | _ => none
      else if c = 'f' then
        match rest with
        | 'a' :: 'l' :: 's' :: 'e' :: rest2 => some (.boolv false, rest2)
        | _ => none
      else if c = '"' then
        (parseStringBody rest).map (fun p => (.str ⟨p.1⟩, p.2))
      else if c = '[' then
        match skipWs rest with
        | [] => none
        | c2 :: rest2 =>
          if c2 = ']' then some (.arr [], rest2)
          else (parseItems fuel (c2 :: rest2)).map (fun p => (.arr p.1, p.2))
      else if c = '\x7b' then
        match skipWs rest with
        | [] => none
        | c2 :: rest2 =>
          if c2 = '\x7d' then some (.obj [], rest2)
          else (parseFields fuel (c2 :: rest2)).map (fun p => (.obj p.1, p.2))
      else
        (parseNumber (c :: rest)).map (fun p => (.num p.1, p.2))

/-- Parse the elements of a non-empty JSON array up to `]`. -/
def parseItems : Nat → List Char → Option (List JVal × List Char)
  | 0, _ => none
  | fuel + 1, cs =>
    match parseV fuel cs with
    | none => none
    | some (v, rest) =>
      match skipWs rest with
      | [] => none
      | c2 :: rest2 =>
        if c2 = ',' then (parseItems fuel rest2).map (fun p => (v :: p.1, p.2))
        else if c2 = ']' then some ([v], rest2)
        else none

/-- Parse the fields of a non-empty JSON object up to the closing
brace. -/
def parseFields : Nat → List Char → Option (List (String × JVal) × List Char)
  | 0, _ => none
  | fuel + 1, cs =>
    match skipWs cs with
    | [] => none
    | c0 :: rest =>
      if c0 = '"' then
        match parseStringBody rest with
        | none => none
        | some (k, rest2) =>
          match skipWs rest2 with
          | [] => none
          | c1 :: rest3 =>
            if c1 = ':' then
              match parseV fuel rest3 with
              | none => none
              | some (v, rest4) =>
                match skipWs rest4 with
                | [] => none
                | c3 :: rest5 =>
                  if c3 = ',' then
                    (parseFields fuel rest5).map (fun p => ((⟨k⟩, v) :: p.1, p.2))
                  else if c3 = '\x7d' then some ([(⟨k⟩, v)], rest5)
                  else none
            else none
      else none

end

/-- `JSON.parse`: parse a whole text, requiring only whitespace after
the value. -/
def parseJson (cs : List Char) : Option JVal :=
  match parseV (cs.length + 1) cs with
  | some (v, rest) => if (skipWs rest).isEmpty then some v else none
  | none => none

/-- The characters that may legally follow a stringified value inside a
larger stringified value (or end of input): they never extend a numeric
token. -/
def closerOk : List Char → Bool
  | [] => true
  | c :: _ => c = ',' || c = ']' || c = '\x7d'

/-- UTF-8 encoding of one unicode scalar value. -/
def utf8EncodeChar (n : Nat) : List Nat :=
  if n < 0x80 then [n]
  else if n < 0x800 then [0xC0 + n / 64, 0x80 + n % 64]
  else if n < 0x10000 then
    [0xE0 + n / 4096, 0x80 + (n / 64) % 64, 0x80 + n % 64]
  else
    [0xF0 + n / 262144, 0x80 + (n / 4096) % 64, 0x80 + (n / 64) % 64, 0x80 + n % 64]

/-- `TextEncoder().encode`. -/
def utf8Encode : List Char → List Nat
  | [] => []
  | c :: cs => utf8EncodeChar c.toNat ++ utf8Encode cs

/-- U+FFFD, the replacement character. -/
def replacementChar : Char := Char.ofNat 0xFFFD

/-- Whether a byte is a UTF-8 continuation byte. -/
def isCont (b : Nat) : Bool := Nat.ble 0x80 b && Nat.blt b 0xC0

/-- One code-point step of `TextDecoder().decode` (non-fatal: an
ill-formed sequence yields a replacement character rather than
throwing): the decoded character and the remaining bytes. -/
def utf8Step : List Nat → Char × List Nat
  | [] => (replacementChar, [])
  | b :: bs =>
    if b < 0x80 then (Char.ofNat b, bs)
    else if b < 0xC0 then (replacementChar, bs)
    else if b < 0xE0 then
      match bs with
      | [] => (replacementChar, [])
      | b1 :: bs1 =>
        (if isCont b1 then Char.ofNat ((b - 0xC0) * 64 + (b1 - 0x80))
         else replacementChar, bs1)
    else if b < 0xF0 then
      match bs with
      | b1 :: b2 :: bs2 =>
        (if isCont b1 && isCont b2 then
          Char.ofNat ((b - 0xE0) * 4096 + (b1 - 0x80) * 64 + (b2 - 0x80))
         else replacementChar, bs2)
      | _ => (replacementChar, [])
    else
      match bs with
      | b1 :: b2 :: b3 :: bs3 =>
        (if isCont b1 && isCont b2 && isCont b3 then
          Char.ofNat ((b - 0xF0) * 262144 + (b1 - 0x80) * 4096
              + (b2 - 0x80) * 64 + (b3 - 0x80))
         else replacementChar, bs3)
      | _ => (replacementChar, [])

/-- Run `utf8Step` until the input is exhausted; each step consumes at
least one byte, so the byte count bounds the number of steps. -/
def utf8DecodeAux : Nat → List Nat → List Char
  | 0, _ => []
  | _ + 1, [] => []
  | fuel + 1, b :: bs =>
    (utf8Step (b :: bs)).1 :: utf8DecodeAux fuel (utf8Step (b :: bs)).2

/-- `TextDecoder().decode` (non-fatal: ill-formed input yields
replacement characters rather than throwing). -/
def utf8Decode (l : List Nat) : List Char := utf8DecodeAux l.length l

/-- `valueToUint8Array` (src/utils.ts:38):
`new TextEncoder().encode(JSON.stringify(value))`. -/
def valueToUint8Array (v : JVal) : List Nat :=
  utf8Encode (stringifyV v)

/-- `uint8ArrayToValue` (src/utils.ts:48): `undefined` on an empty byte
array; otherwise `JSON.parse(new TextDecoder().decode(bytes))`, with a
parse failure caught and turned into `undefined`. -/
def uint8ArrayToValue (bytes : List Nat) : Option JVal :=
  if bytes.length = 0 then none
  else parseJson (utf8Decode bytes)

mutual

/-- Fuel needed by `parseV` to parse a stringified value. -/
def fuelV : JVal → Nat
  | .arr xs => 1 + fuelItems xs
  | .obj fs => 1 + fuelFields fs
  | _ => 1

/-- Fuel needed by `parseItems` for a stringified element list. -/
def fuelItems : List JVal → Nat
  | [] => 0
  | x :: xs => 1 + fuelV x + fuelItems xs

/-- Fuel needed by `parseFields` for a stringified field list. -/
def fuelFields : List (String × JVal) → Nat
  | [] => 0
  | (_, v) :: fs => 1 + fuelV v + fuelFields fs

end

-- Concrete rooms used by witnesses and counterexamples

/-- The local peer of the spec's join scenario (id 7, free ids 100/101). -/
def alicePeer : PeerM :=
  ⟨7, "alice", false, [100, 101], [], []⟩

/-- The remote peer of the spec's scenarios (id 9, "bob", no medias). -/
def bobPeer : PeerM :=
  ⟨9, "bob", true, [], [], []⟩

/-- A joined room whose remote-peer set is exactly peer 9. -/
def roomWithBob : RoomM :=
  { connState := .connected, rdata := [], customer := "acme",
    userId := "alice", ownPeer := some alicePeer,
    remotePeers := [(9, bobPeer)], streamClosed := false, events := [] }

/-- A joined room with an empty remote-peer set. -/
def roomNoPeers : RoomM :=
  { roomWithBob with remotePeers := [] }

/-- The room snapshot of the spec's join scenario: customer, user data,
and a single peer 9 ("bob") with no medias. -/
def joinSnapshot : RoomSnapshot :=
  ⟨"acme", [42], [⟨9, "bob", [], []⟩]⟩

-- ===================================================================
-- THEOREMS
-- ===================================================================

/-- C3 counterexample: the claim says a response frame with both the
error field and the result field null is rejected as malformed and not
delivered; in the code the validity check `(message[2] === null ||
message[3] === null)` is satisfied when both are null, so the frame
`[1, 5, null, null]` is accepted and delivered to `receiveResponse`
(which resolves the pending request with a null result). -/
theorem C3_both_null_delivered :
    receive (.arr [.num 1, .num 5, .nil, .nil]) = .deliverResponse 5 none .nil := rfl

/-- C3 amended: the decoder accepts an inbound response frame
`[1, id, error, result]` with a numeric id, a null-or-string error and a
null-or-structured result exactly when *at most* one of error/result is
non-null (in particular a frame with both null is accepted and settles
the request with a null result); a frame in which both are non-null, or
whose arity is not 4, is rejected as malformed and not delivered. -/
theorem C3_response_at_most_one_nonnull (id : Rat) (e r : MVal)
    (he : (e.isNil || e.isString) = true) (hr : (r.isNil || r.isObjectType) = true) :
    (((e.isNil || r.isNil) = true) →
        receive (.arr [.num 1, .num id, e, r]) = .deliverResponse id e.getErr r) ∧
    (((e.isNil || r.isNil) = false) →
        receive (.arr [.num 1, .num id, e, r]) = .droppedLogged) ∧
    (∀ rest : List MVal, rest.length ≠ 3 →
        receive (.arr (.num 1 :: rest)) = .droppedLogged) := by
  refine ⟨fun h => ?_, fun h => ?_, fun rest hl => ?_⟩
  · simp [receive, MVal.isNumber, MVal.getNum, he, hr, h]
  · simp [receive, MVal.isNumber, MVal.getNum, he, hr, h]
  · rcases rest with _ | ⟨a, _ | ⟨b, _ | ⟨c, _ | ⟨d, t⟩⟩⟩⟩ <;>
      simp [receive] <;> simp at hl

/-- Witness for `C3_response_at_most_one_nonnull` at a concrete frame:
`[1, 7, "oops", null]` is delivered as a rejection carrying the server
message. -/
theorem C3_response_at_most_one_nonnull_witness :
    receive (.arr [.num 1, .num 7, .str "oops", .nil])
      = .deliverResponse 7 (some "oops") .nil :=
  (C3_response_at_most_one_nonnull 7 (.str "oops") .nil rfl rfl).1 rfl

/-- C4 counterexample: the claim says every malformed inbound frame is
*logged* and dropped; a frame whose first element is the number 3 passes
the top-level check but matches no `case` of the `switch` (which has no
`default`), so it is dropped silently, with no log. -/
theorem C4_unknown_tag_dropped_silently :
    receive (.arr [.num 3]) = .droppedSilent ∧
    wellFormedEnvelope (.arr [.num 3]) = false := ⟨rfl, rfl⟩

/-- C4 amended: every inbound frame whose decoded value is not a
well-formed envelope is dropped without raising any error on the
caller-visible path (the classification never throws, and malformed
frames are never delivered); the error is logged except in exactly one
family of cases: a sequence whose first element is a number outside
{0,1,2}, which falls through the tag `switch` silently. -/
theorem C4_malformed_dropped_not_delivered (m : MVal)
    (h : wellFormedEnvelope m = false) :
    (receive m = .droppedLogged ∨ receive m = .droppedSilent) ∧
    (receive m = .droppedSilent ↔
      ∃ tag rest, m = .arr (.num tag :: rest) ∧ tag ≠ 0 ∧ tag ≠ 1 ∧ tag ≠ 2) := by
  cases m with
  | arr l =>
    cases l with
    | nil => simp [receive]
    | cons hd tl =>
      cases hd with
      | num tag =>
        by_cases h0 : tag = 0
        · subst h0
          rcases tl with _ | ⟨a, _ | ⟨b, _ | ⟨c, _ | ⟨d, t⟩⟩⟩⟩ <;>
            simp_all [receive, wellFormedEnvelope] <;>
            (try (split <;> simp_all)) <;> tauto
        · by_cases h1 : tag = 1
          · subst h1
            rcases tl with _ | ⟨a, _ | ⟨b, _ | ⟨c, _ | ⟨d, t⟩⟩⟩⟩ <;>
              simp_all [receive, wellFormedEnvelope] <;>
              (try (split <;> simp_all)) <;> tauto
          · by_cases h2 : tag = 2
            · subst h2
              rcases tl with _ | ⟨a, _ | ⟨b, _ | ⟨c, _ | ⟨d, t⟩⟩⟩⟩ <;>
                simp_all [receive, wellFormedEnvelope] <;>
                (try (split <;> simp_all)) <;> tauto
            · simp [receive, h0, h1, h2]
      | nil => simp [receive]
      | boolv b => simp [receive]
      | str s => simp [receive]
      | arr es => simp [receive]
      | obj => simp [receive]
  | nil => simp [receive]
  | boolv b => simp [receive]
  | num q => simp [receive]
  | str s => simp [receive]
  | obj => simp [receive]

/-- Witness for `C4_malformed_dropped_not_delivered` at the concrete
frame `[3]`. -/
theorem C4_malformed_dropped_not_delivered_witness :
    (receive (.arr [.num 3]) = .droppedLogged ∨
      receive (.arr [.num 3]) = .droppedSilent) ∧
    (receive (.arr [.num 3]) = .droppedSilent ↔
      ∃ tag rest, MVal.arr [MVal.num 3] = .arr (.num tag :: rest) ∧
        tag ≠ 0 ∧ tag ≠ 1 ∧ tag ≠ 2) :=
  C4_malformed_dropped_not_delivered (.arr [.num 3]) rfl

-- Helper lemmas about the pending-request table

theorem mem_fst_of_lookupReq_eq_some {l : List (Nat × String)} {id : Nat} {m : String}
    (h : lookupReq l id = some m) : id ∈ l.map Prod.fst := by
  induction l with
  | nil => simp [lookupReq] at h
  | cons hd tl ih =>
    obtain ⟨k, s⟩ := hd
    by_cases hk : k = id
    · simp [hk]
    · simp only [lookupReq, hk, if_false] at h
      simp [ih h]

theorem lookupReq_eq_some_of_mem {l : List (Nat × String)} {id : Nat} {m : String}
    (nd : (l.map Prod.fst).Nodup) (h : (id, m) ∈ l) : lookupReq l id = some m := by
  induction l with
  | nil => simp at h
  | cons hd tl ih =>
    obtain ⟨k, s⟩ := hd
    rw [List.map_cons, List.nodup_cons] at nd
    rcases List.mem_cons.mp h with heq | htl
    · rw [Prod.mk.injEq] at heq
      obtain ⟨hk, hm⟩ := heq
      subst hk
      subst hm
      simp [lookupReq]
    · have hmem : id ∈ tl.map Prod.fst := List.mem_map_of_mem Prod.fst htl
      have hk : k ≠ id := by
        intro hkk
        rw [hkk] at nd
        exact nd.1 hmem
      simp [lookupReq, hk, ih nd.2 htl]

theorem lookupReq_eq_none_of_not_mem {l : List (Nat × String)} {id : Nat}
    (h : id ∉ l.map Prod.fst) : lookupReq l id = none := by
  induction l with
  | nil => rfl
  | cons hd tl ih =>
    obtain ⟨k, s⟩ := hd
    rw [List.map_cons, List.mem_cons] at h
    push_neg at h
    have hk : k ≠ id := fun hk => h.1 hk.symm
    simp [lookupReq, hk, ih h.2]

theorem eraseReq_sublist (l : List (Nat × String)) (id : Nat) :
    (eraseReq l id).Sublist l :=
  List.filter_sublist l

theorem mem_map_fst_eraseReq {l : List (Nat × String)} {id x : Nat} :
    x ∈ (eraseReq l id).map Prod.fst ↔ x ∈ l.map Prod.fst ∧ x ≠ id := by
  simp only [eraseReq, List.mem_map, List.mem_filter, bne_iff_ne]
  constructor
  · rintro ⟨p, ⟨hp, hne⟩, hx⟩
    subst hx
    exact ⟨⟨p, hp, rfl⟩, hne⟩
  · rintro ⟨⟨p, hp, hx⟩, hne⟩
    subst hx
    exact ⟨p, ⟨hp, hne⟩, rfl⟩

-- Invariant preservation

theorem streamInv_init (timeout : Nat) : StreamInv timeout initStream := by
  simp [StreamInv, initStream]

theorem streamInv_step (timeout : Nat) (s : StreamS) (e : StreamEv)
    (h : StreamInv timeout s) : StreamInv timeout (stepStream timeout s e) := by
  obtain ⟨h1, h2, h3, h4, h5, h6, h7⟩ := h
  cases e with
  | send method =>
    by_cases hws : s.ws
    · simp only [stepStream, hws, if_true]
      refine ⟨?_, h2, ?_, ?_, ?_, ?_, ?_⟩
      · simp only [List.map_append, List.map_cons, List.map_nil]
        refine List.Nodup.append h1 (List.nodup_singleton _) ?_
        intro a ha hb
        simp only [List.mem_singleton] at hb
        have := h4 a ha
        omega
      · intro x hx
        simp only [List.map_append, List.map_cons, List.map_nil, List.mem_append,
          List.mem_singleton]
        rintro (hmem | hx2)
        · exact h3 x hx hmem
        · have := h5 x hx
          omega
      · intro x hx
        simp only [List.map_append, List.map_cons, List.map_nil, List.mem_append,
          List.mem_singleton] at hx
        rcases hx with hmem | hx2
        · exact Nat.lt_succ_of_lt (h4 x hmem)
        · subst hx2
          exact Nat.lt_succ_self _
      · intro x hx
        exact Nat.lt_succ_of_lt (h5 x hx)
      · intro ht x hx
        simp only [List.map_append, List.map_cons, List.map_nil, List.mem_append,
          List.mem_singleton] at hx
        simp only [ht, if_true]
        rcases hx with hmem | hx2
        · exact List.mem_append_left _ (h6 ht x hmem)
        · subst hx2
          exact List.mem_append_right _ (List.mem_singleton_self _)
      · intro hfalse
        simp only [hws] at hfalse
        exact absurd hfalse (by simp)
    · simp only [stepStream, hws, Bool.false_eq_true, if_false]
      have hreq : s.requests = [] := h7 (by simpa using hws)
      exact ⟨h1, h2, h3, fun x hx => Nat.lt_succ_of_lt (h4 x hx),
        fun x hx => Nat.lt_succ_of_lt (h5 x hx), fun ht x hx => h6 ht x hx,
        fun _ => hreq⟩
  | response id error result =>
    cases hl : lookupReq s.requests id with
    | none =>
      have hstep : stepStream timeout s (.response id error result) = s := by
        simp [stepStream, hl]
      rw [hstep]
      exact ⟨h1, h2, h3, h4, h5, h6, h7⟩
    | some m =>
      have hid : id ∈ s.requests.map Prod.fst := mem_fst_of_lookupReq_eq_some hl
      simp only [stepStream, hl]
      refine ⟨?_, ?_, ?_, ?_, ?_, ?_, ?_⟩
      · exact ((eraseReq_sublist _ _).map Prod.fst).nodup h1
      · simp only [List.map_append, List.map_cons, List.map_nil]
        refine List.Nodup.append h2 (List.nodup_singleton _) ?_
        intro a ha hb
        simp only [List.mem_singleton] at hb
        subst hb
        exact h3 a ha hid
      · intro x hx
        simp only [List.map_append, List.map_cons, List.map_nil, List.mem_append,
          List.mem_singleton] at hx
        rw [mem_map_fst_eraseReq]
        rintro ⟨hmem, hne⟩
        rcases hx with hx | hx2
        · exact h3 x hx hmem
        · exact hne hx2
      · intro x hx
        rw [mem_map_fst_eraseReq] at hx
        exact h4 x hx.1
      · intro x hx
        simp only [List.map_append, List.map_cons, List.map_nil, List.mem_append,
          List.mem_singleton] at hx
        rcases hx with hx | hx2
        · exact h5 x hx
        · rw [hx2]
          exact h4 id hid
      · intro ht x hx
        rw [mem_map_fst_eraseReq] at hx
        simp only [List.mem_filter, bne_iff_ne]
        exact ⟨h6 ht x hx.1, by simpa using hx.2⟩
      · intro hfalse
        have hreq := h7 hfalse
        simp [eraseReq, hreq]
  | timeoutFire id =>
    by_cases htm : id ∈ s.timers
    · cases hl : lookupReq s.requests id with
      | some m =>
        have hid : id ∈ s.requests.map Prod.fst := mem_fst_of_lookupReq_eq_some hl
        simp only [stepStream, htm, if_true, hl]
        refine ⟨?_, ?_, ?_, ?_, ?_, ?_, ?_⟩
        · exact ((eraseReq_sublist _ _).map Prod.fst).nodup h1
        · simp only [List.map_append, List.map_cons, List.map_nil]
          refine List.Nodup.append h2 (List.nodup_singleton _) ?_
          intro a ha hb
          simp only [List.mem_singleton] at hb
          subst hb
          exact h3 a ha hid
        · intro x hx
          simp only [List.map_append, List.map_cons, List.map_nil, List.mem_append,
            List.mem_singleton] at hx
          rw [mem_map_fst_eraseReq]
          rintro ⟨hmem, hne⟩
          rcases hx with hx | hx2
          · exact h3 x hx hmem
          · exact hne hx2
        · intro x hx
          rw [mem_map_fst_eraseReq] at hx
          exact h4 x hx.1
        · intro x hx
          simp only [List.map_append, List.map_cons, List.map_nil, List.mem_append,
            List.mem_singleton] at hx
          rcases hx with hx | hx2
          · exact h5 x hx
          · rw [hx2]
            exact h4 id hid
        · intro ht x hx
          rw [mem_map_fst_eraseReq] at hx
          simp only [List.mem_filter, bne_iff_ne]
          exact ⟨h6 ht x hx.1, by simpa using hx.2⟩
        · intro hfalse
          have hreq := h7 hfalse
          simp [eraseReq, hreq]
      | none =>
        have hid : id ∉ s.requests.map Prod.fst := by
          intro hmem
          obtain ⟨p, hp, hk⟩ := List.mem_map.mp hmem
          obtain ⟨k, m⟩ := p
          simp only at hk
          subst hk
          rw [lookupReq_eq_some_of_mem h1 hp] at hl
          exact Option.noConfusion hl
        simp only [stepStream, htm, if_true, hl]
        refine ⟨h1, h2, h3, h4, h5, ?_, h7⟩
        intro ht x hx
        simp only [List.mem_filter, bne_iff_ne]
        refine ⟨h6 ht x hx, ?_⟩
        simp only [decide_eq_true_eq, bne_iff_ne, ne_eq]
        intro hxe
        exact hid (hxe ▸ hx)
    · have hstep : stepStream timeout s (.timeoutFire id) = s := by
        simp [stepStream, htm]
      rw [hstep]
      exact ⟨h1, h2, h3, h4, h5, h6, h7⟩
  | closeEvt =>
    have hmf : (s.requests.map (fun p => (p.1, Outcome.closedErr))).map Prod.fst
        = s.requests.map Prod.fst := by
      simp [List.map_map, Function.comp]
    simp only [stepStream]
    refine ⟨by simp, ?_, by simp, by simp, ?_, by simp, fun _ => rfl⟩
    · rw [List.map_append, hmf]
      exact h2.append h1 h3
    · intro x hx
      rw [List.map_append, hmf] at hx
      rcases List.mem_append.mp hx with hx | hx
      · exact h5 x hx
      · exact h4 x hx

theorem streamInv_run (timeout : Nat) (evs : List StreamEv) :
    StreamInv timeout (runStream timeout evs) := by
  suffices h : ∀ s, StreamInv timeout s → StreamInv timeout (evs.foldl (stepStream timeout) s) by
    exact h initStream (streamInv_init timeout)
  induction evs with
  | nil => exact fun s hs => hs
  | cons e rest ih =>
    intro s hs
    exact ih _ (streamInv_step timeout s e hs)

/-- C1: for every `Stream` (any configured timeout) and every
interleaving of request sends, response arrivals, timeout firings and
connection closes, every allocated request id is settled at most once —
the ghost log of settle calls (each of which is exactly one of: success
with the server result, rejection with the server error message,
rejection with the timeout error, rejection with the closed error, the
four constructors of `Outcome`) never contains two entries for the same
id — and every settled id has been removed from the pending-request
table. -/
theorem C1_requests_settled_at_most_once (timeout : Nat) (evs : List StreamEv) :
    ((runStream timeout evs).settled.map Prod.fst).Nodup ∧
    ∀ p ∈ (runStream timeout evs).settled,
      p.1 ∉ (runStream timeout evs).requests.map Prod.fst := by
  obtain ⟨h1, h2, h3, h4, h5, h6, h7⟩ := streamInv_run timeout evs
  exact ⟨h2, fun p hp => h3 p.1 (List.mem_map_of_mem Prod.fst hp)⟩

/-- C2: on a `Stream` whose configured timeout is positive, if a request
is still pending in some reachable state and its timeout fires (no
response arrived within the window), the request is rejected with the
timeout error and the stream is closed; the websocket close event then
rejects every other still-outstanding request with the closed error and
clears the pending-request table. -/
theorem C2_timeout_closes_connection (timeout : Nat) (evs : List StreamEv)
    (id : Nat) (method : String) (ht : 0 < timeout)
    (hmem : (id, method) ∈ (runStream timeout evs).requests) :
    (runStream timeout (evs ++ [.timeoutFire id, .closeEvt])).settled
      = (runStream timeout evs).settled
        ++ (id, Outcome.timeoutErr method)
          :: (eraseReq (runStream timeout evs).requests id).map
              (fun p => (p.1, Outcome.closedErr)) ∧
    (runStream timeout (evs ++ [.timeoutFire id, .closeEvt])).requests = [] ∧
    (runStream timeout (evs ++ [.timeoutFire id, .closeEvt])).ws = false := by
  obtain ⟨h1, h2, h3, h4, h5, h6, h7⟩ := streamInv_run timeout evs
  have hrun : runStream timeout (evs ++ [.timeoutFire id, .closeEvt])
      = stepStream timeout (stepStream timeout (runStream timeout evs)
          (.timeoutFire id)) .closeEvt := by
    simp [runStream, List.foldl_append]
  have htm : id ∈ (runStream timeout evs).timers :=
    h6 ht id (List.mem_map_of_mem Prod.fst hmem)
  have hl : lookupReq (runStream timeout evs).requests id = some method :=
    lookupReq_eq_some_of_mem h1 hmem
  rw [hrun]
  simp [stepStream, htm, hl]

/-- Witness for `C2_timeout_closes_connection`: two requests are sent
with the default 5000 ms timeout; request 0 times out, the stream
closes, and the close rejects request 1 with the closed error, leaving
the table empty. -/
theorem C2_timeout_closes_connection_witness :
    (runStream 5000 [StreamEv.send "JoinRoom", StreamEv.send "Authenticate",
        StreamEv.timeoutFire 0, StreamEv.closeEvt]).settled
      = [(0, Outcome.timeoutErr "JoinRoom"), (1, Outcome.closedErr)] ∧
    (runStream 5000 [StreamEv.send "JoinRoom", StreamEv.send "Authenticate",
        StreamEv.timeoutFire 0, StreamEv.closeEvt]).requests = [] ∧
    (runStream 5000 [StreamEv.send "JoinRoom", StreamEv.send "Authenticate",
        StreamEv.timeoutFire 0, StreamEv.closeEvt]).ws = false :=
  C2_timeout_closes_connection 5000 [.send "JoinRoom", .send "Authenticate"]
    0 "JoinRoom" (by decide) (by decide)

-- Helper lemmas about the room model

theorem countLeft_append (a b : List REvent) :
    countLeft (a ++ b) = countLeft a + countLeft b := by
  simp [countLeft, List.filter_append]

theorem countPeerLeft_append (pid : Nat) (a b : List REvent) :
    countPeerLeft pid (a ++ b) = countPeerLeft pid a + countPeerLeft pid b := by
  simp [countPeerLeft, List.filter_append]

theorem countPeerLeft_map_mediaStopped (pid q : Nat) (ms : List (Nat × MediaRec)) :
    countPeerLeft q (ms.map (fun m => REvent.mediaStopped pid m.2.id)) = 0 := by
  induction ms with
  | nil => rfl
  | cons hd tl ih =>
    simp only [List.map_cons, countPeerLeft, List.filter_cons] at *
    simp only [beq_iff_eq, reduceCtorEq, if_false]
    exact ih

theorem lookupPeer_erasePeer_self (l : List (Nat × PeerM)) (k : Nat) :
    lookupPeer (erasePeer l k) k = none := by
  induction l with
  | nil => rfl
  | cons hd tl ih =>
    obtain ⟨a, p⟩ := hd
    by_cases ha : a = k
    · simpa [erasePeer, List.filter_cons, ha] using ih
    · simpa [erasePeer, List.filter_cons, ha, lookupPeer] using ih

theorem lookupPeer_append_right {l1 : List (Nat × PeerM)} (l2 : List (Nat × PeerM))
    {k : Nat} (h : lookupPeer l1 k = none) :
    lookupPeer (l1 ++ l2) k = lookupPeer l2 k := by
  induction l1 with
  | nil => rfl
  | cons hd tl ih =>
    obtain ⟨a, p⟩ := hd
    by_cases ha : a = k
    · have h2 : (if a = k then some p else lookupPeer tl k) = none := h
      rw [if_pos ha] at h2
      exact Option.noConfusion h2
    · have h2 : (if a = k then some p else lookupPeer tl k) = none := h
      rw [if_neg ha] at h2
      show (if a = k then some p else lookupPeer (tl ++ l2) k) = lookupPeer l2 k
      rw [if_neg ha]
      exact ih h2

theorem lookupPeer_singleton_ne {a k : Nat} (v : PeerM) (h : a ≠ k) :
    lookupPeer [(a, v)] k = none := by
  simp [lookupPeer, h]

theorem mapSetPeer_of_lookup_none {l : List (Nat × PeerM)} {k : Nat} (v : PeerM)
    (h : lookupPeer l k = none) : mapSetPeer l k v = l ++ [(k, v)] := by
  simp [mapSetPeer, h]

theorem setConnectionState_fields (r : RoomM) (st : ConnState) :
    (setConnectionState r st).connState = st ∧
    (setConnectionState r st).rdata = r.rdata ∧
    (setConnectionState r st).customer = r.customer ∧
    (setConnectionState r st).ownPeer = r.ownPeer ∧
    (setConnectionState r st).remotePeers = r.remotePeers := by
  simp only [setConnectionState]
  split_ifs <;> simp

/-- C9: (a) an assignment to the room's connection state that changes
the value fires exactly one `ConnectionStateChanged{old,new}` event,
followed by `Left` exactly when the new value is `disconnected`; an
assignment of the current value fires nothing; (b) the room-stream
close path — which sets `disconnected` and then runs `disconnect()`,
setting it again — fires `Left` exactly once when the room was not
already disconnected, and not at all when it was. -/
theorem C9_connection_state_events (r : RoomM) (st : ConnState) :
    ((setConnectionState r st).events
      = r.events ++
        (if st = r.connState then []
         else REvent.connectionStateChanged r.connState st ::
           (if st = ConnState.disconnected then [REvent.leftEvt] else []))) ∧
    (setConnectionState r st).connState = st ∧
    countLeft (roomStreamOnClose r).events
      = countLeft r.events
        + (if r.connState = ConnState.disconnected then 0 else 1) := by
  refine ⟨?_, (setConnectionState_fields r st).1, ?_⟩
  · by_cases h : st = r.connState
    · subst h
      simp [setConnectionState]
    · have h' : r.connState ≠ st := fun hh => h hh.symm
      by_cases hd : st = ConnState.disconnected
      · subst hd
        simp [setConnectionState, h', h]
      · simp [setConnectionState, h', h, hd]
  · by_cases h : r.connState = ConnState.disconnected
    · simp [roomStreamOnClose, disconnect, setConnectionState, h]
    · simp [roomStreamOnClose, disconnect, setConnectionState, h, countLeft,
        List.filter_append]

/-- C6 counterexample: the claim says every `PeerLeft` whose peer id is
not in the remote-peer set is a no-op that does not throw; but the guard
`if (!roomUpdate.peer_id)` also fires on the (schema-valid) peer id 0,
so `PeerLeft{peer_id=0}` throws the missing-fields error even though 0
is absent from the (empty) remote-peer set. -/
theorem C6_peer_left_zero_throws :
    roomUpdated roomNoPeers (.peerLeft (some 0))
      = .error "The room update of kind PeerLeft is missing fields." := rfl

/-- C6 amended: for every joined room and every *nonzero* peer id,
applying `PeerLeft` never throws; when the id is absent from the
remote-peer set (or is the own peer's id) it is a no-op that leaves the
graph unchanged and fires no event; and applying the same record twice
in a row leaves the graph identical to a single application, with the
`PeerLeft` event fired exactly once when the peer was present and never
otherwise. -/
theorem C6_duplicate_peer_left_noop (r : RoomM) (q : Nat) (op : PeerM)
    (hq : q ≠ 0) (hop : r.ownPeer = some op) :
    ∃ r1, roomUpdated r (.peerLeft (some q)) = .ok r1 ∧
      roomUpdated r1 (.peerLeft (some q)) = .ok r1 ∧
      ((lookupPeer r.remotePeers q = none ∨ q = op.id) → r1 = r) ∧
      countPeerLeft q r1.events
        = countPeerLeft q r.events
          + (if q ≠ op.id ∧ (lookupPeer r.remotePeers q).isSome then 1 else 0) := by
  by_cases hqop : q = op.id
  · subst hqop
    refine ⟨r, ?_, ?_, fun _ => rfl, ?_⟩ <;>
      simp [roomUpdated, hq, removePeer, hop]
  · cases hl : lookupPeer r.remotePeers q with
    | none =>
      refine ⟨r, ?_, ?_, fun _ => rfl, ?_⟩ <;>
        simp [roomUpdated, hq, removePeer, hop, hqop, hl]
    | some peer =>
      refine
        ⟨{ r with
             events := r.events
               ++ peer.medias.map (fun m => REvent.mediaStopped q m.2.id)
               ++ [REvent.peerLeft q],
             remotePeers := erasePeer r.remotePeers q },
         ?_, ?_, ?_, ?_⟩
      · simp [roomUpdated, hq, removePeer, hop, hqop, hl]
      · simp [roomUpdated, hq, removePeer, hop, hqop, lookupPeer_erasePeer_self]
      · rintro (h | h)
        · exact absurd h (by simp)
        · exact absurd h hqop
      · simp only [countPeerLeft_append, countPeerLeft_map_mediaStopped, hl]
        simp [countPeerLeft, hqop]

/-- Witness for `C6_duplicate_peer_left_noop`: the scenario of the spec,
`PeerLeft{peer_id=9}` on a joined room whose remote set is exactly
peer 9 — the first application removes the peer and fires `PeerLeft`
once; the second is a no-op. -/
theorem C6_duplicate_peer_left_noop_witness :
    ∃ r1, roomUpdated roomWithBob (.peerLeft (some 9)) = .ok r1 ∧
      roomUpdated r1 (.peerLeft (some 9)) = .ok r1 ∧
      ((lookupPeer roomWithBob.remotePeers 9 = none ∨ 9 = alicePeer.id) →
        r1 = roomWithBob) ∧
      countPeerLeft 9 r1.events
        = countPeerLeft 9 roomWithBob.events
          + (if 9 ≠ alicePeer.id ∧ (lookupPeer roomWithBob.remotePeers 9).isSome
            then 1 else 0) :=
  C6_duplicate_peer_left_noop roomWithBob 9 alicePeer (by decide) rfl

-- The snapshot-peer loop of the Joined branch

theorem addPeersLoop_spec (ps : List PeerSnapshot) :
    ∀ (r : RoomM) (op : PeerM), r.ownPeer = some op →
    (∀ q ∈ ps, q.id ≠ op.id) →
    (∀ q ∈ ps, lookupPeer r.remotePeers q.id = none) →
    ((ps.map PeerSnapshot.id).Nodup) →
    ∃ r1, addPeersLoop r ps = .ok r1 ∧
      r1.remotePeers = r.remotePeers
        ++ ps.map (fun x => (x.id,
            (⟨x.id, x.userId, true, [], snapshotMedias x.id x.medias,
              x.userData⟩ : PeerM))) ∧
      r1.ownPeer = r.ownPeer ∧ r1.connState = r.connState ∧
      r1.rdata = r.rdata ∧ r1.customer = r.customer := by
  induction ps with
  | nil =>
    intro r op hop _ _ _
    exact ⟨r, rfl, by simp, rfl, rfl, rfl, rfl⟩
  | cons q rest ih =>
    intro r op hop hne hnew hnd
    have hqne : q.id ≠ op.id := hne q (List.mem_cons_self q rest)
    have hqnew : lookupPeer r.remotePeers q.id = none :=
      hnew q (List.mem_cons_self q rest)
    rw [List.map_cons, List.nodup_cons] at hnd
    have haddr : addRemotePeer r q.id q.userId q.medias q.userData
        = Except.ok
            ({ r with
                 remotePeers := r.remotePeers
                   ++ [(q.id, (⟨q.id, q.userId, true, [],
                         snapshotMedias q.id q.medias, q.userData⟩ : PeerM))] },
              (⟨q.id, q.userId, true, [],
                snapshotMedias q.id q.medias, q.userData⟩ : PeerM)) := by
      simp [addRemotePeer, hop, hqne, mapSetPeer_of_lookup_none _ hqnew]
    have hrest : ∀ x ∈ rest,
        lookupPeer (r.remotePeers
          ++ [(q.id, (⟨q.id, q.userId, true, [],
                snapshotMedias q.id q.medias, q.userData⟩ : PeerM))]) x.id
          = none := by
      intro x hx
      rw [lookupPeer_append_right _ (hnew x (List.mem_cons_of_mem q hx))]
      refine lookupPeer_singleton_ne _ ?_
      intro hqx
      refine hnd.1 ?_
      rw [hqx]
      exact List.mem_map_of_mem PeerSnapshot.id hx
    obtain ⟨r1, hrun, hrem, hown1, hconn1, hdata1, hcust1⟩ :=
      ih { r with
             remotePeers := r.remotePeers
               ++ [(q.id, (⟨q.id, q.userId, true, [],
                     snapshotMedias q.id q.medias, q.userData⟩ : PeerM))],
             events := r.events ++ [REvent.peerJoined q.id]
               ++ (snapshotMedias q.id q.medias).map
                   (fun m => REvent.mediaStarted q.id m.2.id) }
        op hop (fun x hx => hne x (List.mem_cons_of_mem q hx)) hrest hnd.2
    refine ⟨r1, ?_, ?_, hown1, hconn1, hdata1, hcust1⟩
    · show (match addRemotePeer r q.id q.userId q.medias q.userData with
        | .error e => Except.error e
        | .ok (rA, peer) => addPeersLoop
            { rA with
                events := rA.events ++ [REvent.peerJoined q.id]
                  ++ peer.medias.map (fun m => REvent.mediaStarted q.id m.2.id) }
            rest) = Except.ok r1
      rw [haddr]
      exact hrun
    · rw [hrem]
      show r.remotePeers
          ++ [(q.id, (⟨q.id, q.userId, true, [],
                snapshotMedias q.id q.medias, q.userData⟩ : PeerM))]
          ++ rest.map (fun x => (x.id,
              (⟨x.id, x.userId, true, [], snapshotMedias x.id x.medias,
                x.userData⟩ : PeerM)))
        = r.remotePeers ++ (q :: rest).map (fun x => (x.id,
            (⟨x.id, x.userId, true, [], snapshotMedias x.id x.medias,
              x.userData⟩ : PeerM)))
      rw [List.map_cons, List.append_assoc, List.singleton_append]

/-- C5 counterexample: the claim quantifies over every `Joined` record;
for the (schema-valid) own peer id 0 the JS falsiness guard
`!roomUpdate.own_peer_id` fires, the reducer throws the missing-fields
error, and the room does not reach the connected state. -/
theorem C5_zero_own_peer_id_rejected :
    roomUpdated (initRoom "alice")
      (.joined (some joinSnapshot) (some 0) (some [100, 101]))
      = .error "The room update of kind Joined is missing fields." := rfl

/-- C5 amended: applying a `Joined` record with *nonzero* own peer id
`p`, free media id list `L`, and a snapshot whose peer entries have
distinct ids, none equal to `p`, and no video medias, to a room whose
remote-peer set is still empty (the `Joined` record is the first update
after the join handshake), leaves the room connected, with a local peer
of id `p` whose free-media-id pool is exactly `L`, the room user-data
and customer taken from the snapshot, and one remote peer per snapshot
entry holding one media per listed media id. -/
theorem C5_joined_seeds_room (r : RoomM) (snap : RoomSnapshot) (p : Nat)
    (ids : List Nat)
    (hp : p ≠ 0)
    (hown : ∀ ps ∈ snap.peers, ps.id ≠ p)
    (hvid : ∀ ps ∈ snap.peers, ∀ m ∈ ps.medias, m.kindVideo = false)
    (hnd : (snap.peers.map PeerSnapshot.id).Nodup)
    (hfresh : r.remotePeers = []) :
    ∃ r1, roomUpdated r (.joined (some snap) (some p) (some ids)) = .ok r1 ∧
      r1.connState = .connected ∧
      r1.ownPeer = some ⟨p, r.userId, false, ids, [], []⟩ ∧
      r1.rdata = snap.userData ∧
      r1.customer = snap.customer ∧
      r1.remotePeers = snap.peers.map (fun x => (x.id,
        (⟨x.id, x.userId, true, [],
          x.medias.map (fun m => (m.id, ⟨m.id, x.id, true⟩)),
          x.userData⟩ : PeerM))) := by
  have hsnap : ∀ x ∈ snap.peers,
      snapshotMedias x.id x.medias
        = x.medias.map (fun m => (m.id, (⟨m.id, x.id, true⟩ : MediaRec))) := by
    intro x hx
    have hfil : x.medias.filter (fun m => !m.kindVideo) = x.medias :=
      List.filter_eq_self.mpr (fun m hm => by simp [hvid x hx m hm])
    unfold snapshotMedias
    rw [hfil]
  obtain ⟨r3, hrun, hrem, hown3, hconn3, hdata3, hcust3⟩ :=
    addPeersLoop_spec snap.peers
      { r with
          rdata := snap.userData, customer := snap.customer,
          ownPeer := some (⟨p, r.userId, false, ids, [], []⟩ : PeerM) }
      ⟨p, r.userId, false, ids, [], []⟩ rfl (fun x hx => hown x hx)
      (fun x hx => by
        show lookupPeer r.remotePeers x.id = none
        rw [hfresh]
        rfl) hnd
  obtain ⟨p', rfl⟩ : ∃ p', p = p' + 1 := ⟨p - 1, by omega⟩
  refine ⟨setConnectionState r3 ConnState.connected, ?_, ?_, ?_, ?_, ?_, ?_⟩
  · show (match addPeersLoop
        { r with
            rdata := snap.userData, customer := snap.customer,
            ownPeer := some (⟨p' + 1, r.userId, false, ids, [], []⟩ : PeerM) }
        snap.peers with
      | .error e => Except.error e
      | .ok r4 => Except.ok (setConnectionState r4 ConnState.connected))
      = Except.ok (setConnectionState r3 ConnState.connected)
    rw [hrun]
  · exact (setConnectionState_fields r3 ConnState.connected).1
  · rw [(setConnectionState_fields r3 ConnState.connected).2.2.2.1, hown3]
  · rw [(setConnectionState_fields r3 ConnState.connected).2.1, hdata3]
  · rw [(setConnectionState_fields r3 ConnState.connected).2.2.1, hcust3]
  · rw [(setConnectionState_fields r3 ConnState.connected).2.2.2.2, hrem]
    have hR2 : ({ r with
        rdata := snap.userData, customer := snap.customer,
        ownPeer := some (⟨p' + 1, r.userId, false, ids, [], []⟩ : PeerM) }
          : RoomM).remotePeers = [] := hfresh
    rw [hR2, List.nil_append]
    refine List.map_congr_left ?_
    intro x hx
    rw [hsnap x hx]

/-- Witness for `C5_joined_seeds_room`: the scenario of the spec —
`Joined` with `own_peer_id=7`, `media_ids=[100,101]` and one snapshot
peer 9 ("bob") with no medias: the room ends connected with local peer 7
holding free ids [100,101] and one remote peer 9 with zero media. -/
theorem C5_joined_seeds_room_witness :
    ∃ r1, roomUpdated (initRoom "alice")
        (.joined (some joinSnapshot) (some 7) (some [100, 101])) = .ok r1 ∧
      r1.connState = .connected ∧
      r1.ownPeer = some ⟨7, (initRoom "alice").userId, false, [100, 101], [], []⟩ ∧
      r1.rdata = joinSnapshot.userData ∧
      r1.customer = joinSnapshot.customer ∧
      r1.remotePeers = joinSnapshot.peers.map (fun x => (x.id,
        (⟨x.id, x.userId, true, [],
          x.medias.map (fun m => (m.id, ⟨m.id, x.id, true⟩)),
          x.userData⟩ : PeerM))) :=
  C5_joined_seeds_room (initRoom "alice") joinSnapshot 7 [100, 101]
    (by decide) (by decide) (by decide) (by decide) rfl

-- Helper lemmas about list slots

theorem getD_set_self (l : List (Option Nat)) :
    ∀ k, k < l.length → ∀ v : Option Nat, (l.set k v).getD k none = v := by
  induction l with
  | nil =>
    intro k hk v
    simp at hk
  | cons hd tl ih =>
    intro k hk v
    cases k with
    | zero => rfl
    | succ j => exact ih j (by simpa using hk) v

theorem getD_set_ne (l : List (Option Nat)) :
    ∀ k k' : Nat, k ≠ k' → ∀ v : Option Nat,
      (l.set k v).getD k' none = l.getD k' none := by
  induction l with
  | nil =>
    intro k k' h v
    rfl
  | cons hd tl ih =>
    intro k k' h v
    cases k with
    | zero =>
      cases k' with
      | zero => exact absurd rfl h
      | succ j => rfl
    | succ i =>
      cases k' with
      | zero => rfl
      | succ j => exact ih i j (fun hh => h (by rw [hh])) v

theorem getD_replicate_none : ∀ n k : Nat,
    (List.replicate n (none : Option Nat)).getD k none = none := by
  intro n
  induction n with
  | zero => intro k; rfl
  | succ m ih =>
    intro k
    cases k with
    | zero => rfl
    | succ j => exact ih j

-- Ring buffer invariant preservation

theorem ringInv_init (reqs : List Nat)
    (hreq : ∀ i ∈ reqs, i < DefaultNumBuffers) (hnd : reqs.Nodup) :
    RingInv (initRing reqs) := by
  refine ⟨by simp [initRing], ?_, ?_, hnd, by simp [initRing, SamplesSize], rfl, ?_⟩
  · intro k i hk
    rw [show (initRing reqs).slots = List.replicate DefaultNumBuffers none from rfl,
      getD_replicate_none] at hk
    exact Option.noConfusion hk
  · intro i hi
    exact hreq i hi
  · intro p hp
    simp [initRing] at hp

theorem ringInv_step (s : RingS) (e : RingEv)
    (hg : ∀ i, e = .samplesMsg i → i ∈ s.requested)
    (h : RingInv s) : RingInv (ringStep s e) := by
  obtain ⟨hlen, hslots, hreq, hnd, hoff, hov, hreads⟩ := h
  have hslot_cur : ∀ j,
      s.slots.getD (s.bufIndex % DefaultNumBuffers) none = some j →
        j = s.bufIndex := by
    intro j hj
    obtain ⟨hmod, hge, hlt, _⟩ := hslots _ j hj
    simp only [DefaultNumBuffers] at hmod hlt ⊢
    omega
  cases e with
  | stopMsg => exact ⟨hlen, hslots, hreq, hnd, hoff, hov, hreads⟩
  | samplesMsg i =>
    have hi : i ∈ s.requested := hg i rfl
    by_cases hle : s.bufIndex ≤ i
    · have hnone : s.slots.getD (i % DefaultNumBuffers) none = none := by
        cases hs : s.slots.getD (i % DefaultNumBuffers) none with
        | none => rfl
        | some j =>
          obtain ⟨hmod, hge, hlt, hnr⟩ := hslots _ j hs
          have hiw : i < s.bufIndex + DefaultNumBuffers := hreq i hi
          have hij : i = j := by
            simp only [DefaultNumBuffers] at hmod hlt hiw ⊢
            omega
          exact absurd hi (hij ▸ hnr)
      simp only [ringStep, hle, if_true]
      simp only [RingInv]
      refine ⟨by simpa using hlen, ?_, ?_, hnd.erase i, hoff, ?_, hreads⟩
      · intro k j hk
        by_cases hki : k = i % DefaultNumBuffers
        · subst hki
          rw [getD_set_self _ _ (by rw [hlen]; exact Nat.mod_lt _ (by decide))] at hk
          cases hk
          refine ⟨rfl, hle, hreq i hi, ?_⟩
          rw [hnd.mem_erase_iff]
          rintro ⟨hne, _⟩
          exact hne rfl
        · rw [getD_set_ne _ _ _ (fun hh => hki hh.symm)] at hk
          obtain ⟨hmod, hge, hlt, hnr⟩ := hslots _ j hk
          exact ⟨hmod, hge, hlt, fun hm => hnr (List.mem_of_mem_erase hm)⟩
      · intro x hx
        exact hreq x (List.mem_of_mem_erase hx)
      · rw [hnone]
        simp [hov]
    · simp only [ringStep, hle, if_false]
      simp only [RingInv]
      refine ⟨hlen, ?_, ?_, hnd.erase i, hoff, hov, hreads⟩
      · intro k j hk
        obtain ⟨hmod, hge, hlt, hnr⟩ := hslots _ j hk
        exact ⟨hmod, hge, hlt, fun hm => hnr (List.mem_of_mem_erase hm)⟩
      · intro x hx
        exact hreq x (List.mem_of_mem_erase hx)
  | procStep =>
    have hreads1 : ∀ p ∈ s.reads ++ [(s.bufIndex, slotAt s)],
        ∀ i, p.2 = some i → i = p.1 := by
      intro p hp i hpi
      rcases List.mem_append.mp hp with hp | hp
      · exact hreads p hp i hpi
      · rw [List.mem_singleton] at hp
        subst hp
        exact hslot_cur i hpi
    by_cases he : min (s.bufOffset + RenderQuantum) SamplesSize = SamplesSize
    · have hex : SamplesSize ≤ s.bufOffset + RenderQuantum := min_eq_right_iff.mp he
      have hnext : ∀ j,
          (s.slots.set (s.bufIndex % DefaultNumBuffers) none).getD
            ((s.bufIndex + 1) % DefaultNumBuffers) none = some j →
            j = s.bufIndex + 1 := by
        intro j hj
        have hne : s.bufIndex % DefaultNumBuffers
            ≠ (s.bufIndex + 1) % DefaultNumBuffers := by
          simp only [DefaultNumBuffers]
          omega
        rw [getD_set_ne _ _ _ hne] at hj
        obtain ⟨hmod, hge, hlt, _⟩ := hslots _ j hj
        simp only [DefaultNumBuffers] at hmod hlt ⊢
        omega
      have hslotinv : ∀ k j,
          (s.slots.set (s.bufIndex % DefaultNumBuffers) none).getD k none
            = some j →
          j % DefaultNumBuffers = k ∧ s.bufIndex + 1 ≤ j ∧
          j < s.bufIndex + 1 + DefaultNumBuffers ∧
          j ∉ s.requested ++ [s.bufIndex + DefaultNumBuffers] := by
        intro k j hk
        by_cases hki : k = s.bufIndex % DefaultNumBuffers
        · subst hki
          rw [getD_set_self _ _ (by rw [hlen]; exact Nat.mod_lt _ (by decide))] at hk
          exact Option.noConfusion hk
        · rw [getD_set_ne _ _ _ (fun hh => hki hh.symm)] at hk
          obtain ⟨hmod, hge, hlt, hnr⟩ := hslots _ j hk
          have hjne : j ≠ s.bufIndex := by
            intro hje
            exact hki (by rw [← hje, hmod])
          refine ⟨hmod, by omega, by omega, ?_⟩
          intro hm
          rcases List.mem_append.mp hm with hm | hm
          · exact hnr hm
          · rw [List.mem_singleton] at hm
            omega
      have hreqinv : ∀ x ∈ s.requested ++ [s.bufIndex + DefaultNumBuffers],
          x < s.bufIndex + 1 + DefaultNumBuffers := by
        intro x hx
        rcases List.mem_append.mp hx with hx | hx
        · have := hreq x hx
          omega
        · rw [List.mem_singleton] at hx
          omega
      have hndinv : (s.requested ++ [s.bufIndex + DefaultNumBuffers]).Nodup := by
        refine hnd.append (List.nodup_singleton _) ?_
        intro a ha hb
        rw [List.mem_singleton] at hb
        subst hb
        exact absurd (hreq _ ha) (by omega)
      have hoffinv : s.bufOffset + RenderQuantum - SamplesSize < SamplesSize := by
        simp only [RenderQuantum, SamplesSize] at hoff hex ⊢
        omega
      by_cases hl : 0 < s.bufOffset + RenderQuantum - SamplesSize
      · simp only [ringStep, he, if_true, hl]
        simp only [RingInv]
        refine ⟨by simpa using hlen, hslotinv, hreqinv, hndinv, hoffinv, hov, ?_⟩
        intro p hp i hpi
        rcases List.mem_append.mp hp with hp | hp
        · exact hreads1 p hp i hpi
        · rw [List.mem_singleton] at hp
          subst hp
          exact hnext i hpi
      · simp only [ringStep, he, if_true, hl]
        simp only [RingInv]
        exact ⟨by simpa using hlen, hslotinv, hreqinv, hndinv, hoffinv, hov, hreads1⟩
    · have hlt2 : s.bufOffset + RenderQuantum < SamplesSize := by
        rcases Nat.lt_or_ge (s.bufOffset + RenderQuantum) SamplesSize with hc | hc
        · exact hc
        · exact absurd (Nat.min_eq_right hc) he
      simp only [ringStep, he, if_false]
      simp only [RingInv]
      refine ⟨hlen, hslots, hreq, hnd, ?_, hov, hreads1⟩
      rw [Nat.min_eq_left (Nat.le_of_lt hlt2)]
      exact hlt2

theorem ringInv_run (reqs : List Nat) (evs : List RingEv)
    (hreq : ∀ i ∈ reqs, i < DefaultNumBuffers) (hnd : reqs.Nodup)
    (hv : validEvents (initRing reqs) evs = true) :
    RingInv (runRing reqs evs) := by
  have h : ∀ (l : List RingEv) (s : RingS), RingInv s → validEvents s l = true →
      RingInv (l.foldl ringStep s) := by
    intro l
    induction l with
    | nil => exact fun s hs _ => hs
    | cons e rest ih =>
      intro s hs hv
      rw [validEvents, Bool.and_eq_true] at hv
      refine ih (ringStep s e) (ringInv_step s e ?_ hs) hv.2
      intro i hi
      have hc := hv.1
      rw [hi] at hc
      simpa [evGuard] using hc
  exact h evs (initRing reqs) (ringInv_init reqs hreq hnd) hv

/-- C7: the decode direction of the ring buffer.  (a) Whenever the
renderer's `process` step reaches the end of the current slot's
960-sample block (offset + 128 ≥ 960), it clears that slot, posts a
`decode` request for logical index `current + N` (read-ahead of exactly
one full ring, N = 3), and advances its index by one.  (b) When the
block is not yet exhausted nothing of that happens.  (c) Every `process`
step records a read of the current index carrying the current slot
content — `none`, i.e. silence for the missing span, when the slot has
not been filled — and always completes (never blocks); that the output
resumes with the correct block once the slot arrives is the
read-correctness part of `C8_ring_buffer_safety`. -/
theorem C7_decoder_process_step (s : RingS) :
    (SamplesSize ≤ s.bufOffset + RenderQuantum →
      (ringStep s .procStep).slots
          = s.slots.set (s.bufIndex % DefaultNumBuffers) none ∧
      (ringStep s .procStep).requested
          = s.requested ++ [s.bufIndex + DefaultNumBuffers] ∧
      (ringStep s .procStep).bufIndex = s.bufIndex + 1) ∧
    (s.bufOffset + RenderQuantum < SamplesSize →
      (ringStep s .procStep).slots = s.slots ∧
      (ringStep s .procStep).requested = s.requested ∧
      (ringStep s .procStep).bufIndex = s.bufIndex ∧
      (ringStep s .procStep).bufOffset = s.bufOffset + RenderQuantum) ∧
    (∃ tail, (ringStep s .procStep).reads
        = s.reads ++ (s.bufIndex, slotAt s) :: tail) := by
  refine ⟨fun hex => ?_, fun hlt => ?_, ?_⟩
  · have he : min (s.bufOffset + RenderQuantum) SamplesSize = SamplesSize :=
      Nat.min_eq_right hex
    by_cases hl : 0 < s.bufOffset + RenderQuantum - SamplesSize <;>
      simp [ringStep, he, hl]
  · have he : min (s.bufOffset + RenderQuantum) SamplesSize
        = s.bufOffset + RenderQuantum := Nat.min_eq_left (Nat.le_of_lt hlt)
    simp [ringStep, he, Nat.ne_of_lt hlt, Nat.lt_asymm hlt]
  · by_cases he : min (s.bufOffset + RenderQuantum) SamplesSize = SamplesSize
    · by_cases hl : 0 < s.bufOffset + RenderQuantum - SamplesSize
      · refine ⟨[((ringStep s .procStep).bufIndex,
          slotAt { s with
            slots := s.slots.set (s.bufIndex % DefaultNumBuffers) none,
            bufIndex := s.bufIndex + 1 })], ?_⟩
        simp [ringStep, he, hl, slotAt]
      · exact ⟨[], by simp [ringStep, he, hl]⟩
    · exact ⟨[], by simp [ringStep, he]⟩

/-- Witness for `C7_decoder_process_step` at the concrete state
`ringExhaustEx` (offset 832, empty slots): the step clears slot 0,
requests index 0 + 3, advances to index 1, and records a
silence-substituted read of index 0. -/
theorem C7_decoder_process_step_witness :
    ((ringStep ringExhaustEx .procStep).slots
        = ringExhaustEx.slots.set (ringExhaustEx.bufIndex % DefaultNumBuffers) none ∧
      (ringStep ringExhaustEx .procStep).requested
        = ringExhaustEx.requested ++ [ringExhaustEx.bufIndex + DefaultNumBuffers] ∧
      (ringStep ringExhaustEx .procStep).bufIndex = ringExhaustEx.bufIndex + 1) ∧
    (∃ tail, (ringStep ringExhaustEx .procStep).reads
        = ringExhaustEx.reads
          ++ (ringExhaustEx.bufIndex, slotAt ringExhaustEx) :: tail) :=
  ⟨(C7_decoder_process_step ringExhaustEx).1 (by decide),
    (C7_decoder_process_step ringExhaustEx).2.2⟩

/-- C8: in every state reachable by interleaving producer `samples`
deliveries with consumer `process` steps — under the producer discipline
that only requested indices are delivered, the initial outstanding
requests covering (part of) the first ring — (a) no slot still holding
an unconsumed block is ever overwritten, (b) every fill span that found
data read exactly the block written for the index being consumed (so no
slot is ever read for an index before that index's block was written —
an unwritten slot yields silence, not stale data), and (c) the current
slot, when full, holds precisely the block for the current index.  The
only enforcement is the `event.data.index >= this.buffer_index`
comparison in `on_message`. -/
theorem C8_ring_buffer_safety (reqs : List Nat) (evs : List RingEv)
    (hreq : ∀ i ∈ reqs, i < DefaultNumBuffers) (hnd : reqs.Nodup)
    (hv : validEvents (initRing reqs) evs = true) :
    (runRing reqs evs).overwrites = 0 ∧
    (∀ p ∈ (runRing reqs evs).reads, ∀ i, p.2 = some i → i = p.1) ∧
    (∀ j, slotAt (runRing reqs evs) = some j → j = (runRing reqs evs).bufIndex) := by
  obtain ⟨hlen, hslots, hreqs, hnd2, hoff, hov, hreads⟩ :=
    ringInv_run reqs evs hreq hnd hv
  refine ⟨hov, hreads, ?_⟩
  intro j hj
  obtain ⟨hmod, hge, hlt, _⟩ := hslots _ j hj
  simp only [DefaultNumBuffers] at hmod hlt ⊢
  omega

/-- Witness for `C8_ring_buffer_safety`: the codec is primed for indices
0..2, delivers block 0, the renderer runs one `process` step (reading
block 0), and block 2 arrives later. -/
theorem C8_ring_buffer_safety_witness :
    (runRing [0, 1, 2] [.samplesMsg 0, .procStep, .samplesMsg 2]).overwrites = 0 ∧
    (∀ p ∈ (runRing [0, 1, 2] [.samplesMsg 0, .procStep, .samplesMsg 2]).reads,
      ∀ i, p.2 = some i → i = p.1) ∧
    (∀ j, slotAt (runRing [0, 1, 2] [.samplesMsg 0, .procStep, .samplesMsg 2])
        = some j →
      j = (runRing [0, 1, 2] [.samplesMsg 0, .procStep, .samplesMsg 2]).bufIndex) :=
  C8_ring_buffer_safety [0, 1, 2] [.samplesMsg 0, .procStep, .samplesMsg 2]
    (by decide) (by decide) (by decide)

-- Character-class helper lemmas for the JSON model

theorem char_ne_of_toNat_ne {c d : Char} (h : c.toNat ≠ d.toNat) : c ≠ d :=
  fun he => h (congrArg Char.toNat he)

theorem skipWs_cons {c : Char} (l : List Char) (h : isWs c = false) :
    skipWs (c :: l) = c :: l := by
  simp [skipWs, h]

theorem isDigit_iff {c : Char} : isDigit c = true ↔ 48 ≤ c.toNat ∧ c.toNat ≤ 57 := by
  simp [isDigit, Nat.ble_eq]

theorem digit_isDigit : ∀ d, d < 10 → isDigit (digitChar d) = true := by decide

theorem digitChar_toNat : ∀ d, d < 10 → (digitChar d).toNat = 48 + d := by decide

theorem parseHex_hexDigitChar : ∀ d, d < 16 → parseHex (hexDigitChar d) = some d := by
  decide

/-- A head that cannot extend a number token. -/
def headNotDigit : List Char → Bool
  | [] => true
  | c :: _ => !(isDigit c)

theorem headNotDigit_of_closerOk {rest : List Char} (h : closerOk rest = true) :
    headNotDigit rest = true := by
  cases rest with
  | nil => rfl
  | cons c t =>
    simp only [closerOk, Bool.or_eq_true, decide_eq_true_eq] at h
    rcases h with (h | h) | h <;> subst h <;> rfl

theorem parseDigits_stop (acc : Nat) (rest : List Char)
    (h : headNotDigit rest = true) : parseDigits acc rest = (acc, rest) := by
  cases rest with
  | nil => rfl
  | cons c t =>
    simp only [headNotDigit, Bool.not_eq_true'] at h
    simp [parseDigits, h]

theorem natToChars_length (n : Nat) (h : ¬ n < 10) :
    (natToChars n).length = (natToChars (n / 10)).length + 1 := by
  rw [natToChars, dif_neg h, List.length_append]
  rfl

theorem natToChars_head :
    ∀ n, ∃ d t, natToChars n = digitChar d :: t ∧ d < 10 := by
  intro n
  induction n using Nat.strong_induction_on with
  | _ n ih =>
    by_cases h : n < 10
    · rw [natToChars, dif_pos h]
      exact ⟨n, [], rfl, h⟩
    · rw [natToChars, dif_neg h]
      obtain ⟨d, t, heq, hd⟩ := ih (n / 10) (Nat.div_lt_self (by omega) (by omega))
      exact ⟨d, t ++ [digitChar (n % 10)], by rw [heq]; rfl, hd⟩

theorem intToChars_head (n : Int) :
    ∃ c t, intToChars n = c :: t ∧ (c = '-' ∨ isDigit c = true) := by
  cases n with
  | ofNat m =>
    obtain ⟨d, t, heq, hd⟩ := natToChars_head m
    exact ⟨digitChar d, t, heq, Or.inr (digit_isDigit d hd)⟩
  | negSucc m =>
    exact ⟨'-', natToChars (m + 1), rfl, Or.inl rfl⟩

theorem numStart_toNat {c : Char} (h : c = '-' ∨ isDigit c = true) :
    c.toNat = 45 ∨ (48 ≤ c.toNat ∧ c.toNat ≤ 57) := by
  rcases h with h | h
  · subst h
    left
    decide
  · right
    exact isDigit_iff.mp h

theorem numStart_not_ws {c : Char} (h : c = '-' ∨ isDigit c = true) :
    isWs c = false := by
  have ht := numStart_toNat h
  simp only [isWs, Bool.or_eq_false_iff, beq_eq_false_iff_ne, ne_eq]
  omega

theorem parseDigits_natToChars :
    ∀ n acc rest, parseDigits acc (natToChars n ++ rest)
      = parseDigits (acc * 10 ^ (natToChars n).length + n) rest := by
  intro n
  induction n using Nat.strong_induction_on with
  | _ n ih =>
    intro acc rest
    by_cases h : n < 10
    · rw [natToChars, dif_pos h, List.singleton_append]
      simp only [parseDigits, digit_isDigit n h, if_true]
      rw [digitChar_toNat n h]
      have h1 : 48 + n - 48 = n := by omega
      rw [h1]
      simp only [List.length_singleton, pow_one]
    · rw [natToChars, dif_neg h, List.append_assoc, List.singleton_append]
      rw [ih (n / 10) (Nat.div_lt_self (by omega) (by omega)) acc
        (digitChar (n % 10) :: rest)]
      have hm : n % 10 < 10 := Nat.mod_lt _ (by omega)
      simp only [parseDigits, digit_isDigit _ hm, if_true]
      rw [digitChar_toNat _ hm]
      have h1 : 48 + n % 10 - 48 = n % 10 := by omega
      have h4 : ∀ P : ℕ, (acc * P + n / 10) * 10 + n % 10 = acc * (P * 10) + n := by
        intro P
        have h3 : n / 10 * 10 + n % 10 = n := by omega
        calc (acc * P + n / 10) * 10 + n % 10
            = acc * (P * 10) + (n / 10 * 10 + n % 10) := by ring
          _ = acc * (P * 10) + n := by rw [h3]
      rw [h1, List.length_append, List.length_singleton, pow_succ,
        h4 (10 ^ (natToChars (n / 10)).length)]

theorem parseDigits_natToChars_zero (n : Nat) (rest : List Char)
    (h : headNotDigit rest = true) :
    parseDigits 0 (natToChars n ++ rest) = (n, rest) := by
  rw [parseDigits_natToChars n 0 rest, parseDigits_stop _ _ h]
  simp

theorem parseNumber_intToChars (n : Int) (rest : List Char)
    (h : headNotDigit rest = true) :
    parseNumber (intToChars n ++ rest) = some (n, rest) := by
  cases n with
  | ofNat m =>
    obtain ⟨d, t, heq, hd⟩ := natToChars_head m
    show parseNumber (natToChars m ++ rest) = some (Int.ofNat m, rest)
    have hne : ¬ digitChar d = '-' := by
      refine char_ne_of_toNat_ne ?_
      rw [digitChar_toNat d hd]
      have h45 : ('-').toNat = 45 := rfl
      rw [h45]
      omega
    have hpd : parseDigits 0 (digitChar d :: (t ++ rest)) = (m, rest) := by
      rw [← List.cons_append, ← heq, parseDigits_natToChars_zero m rest h]
    rw [heq, List.cons_append, parseNumber.eq_def]
    dsimp only
    rw [if_neg hne, if_pos (digit_isDigit d hd), hpd]
    rfl
  | negSucc m =>
    show parseNumber ('-' :: (natToChars (m + 1) ++ rest)) = some (Int.negSucc m, rest)
    obtain ⟨d, t, heq, hd⟩ := natToChars_head (m + 1)
    have hpd : parseDigits 0 (digitChar d :: (t ++ rest)) = (m + 1, rest) := by
      rw [← List.cons_append, ← heq, parseDigits_natToChars_zero (m + 1) rest h]
    rw [heq, List.cons_append, parseNumber.eq_def]
    dsimp only
    rw [if_pos rfl, if_pos (digit_isDigit d hd), hpd]
    have hx : -((m + 1 : Nat) : Int) = Int.negSucc m := by
      rw [Int.negSucc_eq]
      push_cast
      ring
    show some (-((m + 1 : Nat) : Int), rest) = some (Int.negSucc m, rest)
    rw [hx]

-- String escaping round trip

theorem parseStringBody_escape :
    ∀ (s : List Char) (rest : List Char),
      parseStringBody (escapeString s ++ '"' :: rest) = some (s, rest) := by
  intro s
  induction s with
  | nil =>
    intro rest
    show parseStringBody ('"' :: rest) = some ([], rest)
    rw [parseStringBody.eq_def]
    dsimp only
    rw [if_pos rfl]
  | cons c cs ih =>
    intro rest
    rw [escapeString, List.append_assoc]
    by_cases h1 : c = '"'
    · subst h1
      rw [show escapeChar '"' = ['\\', '"'] from rfl]
      simp only [List.cons_append, List.nil_append]
      rw [parseStringBody.eq_def]
      dsimp only
      rw [if_neg (by decide : ¬ ('\\' : Char) = '"'),
        if_pos (rfl : ('\\' : Char) = '\\'),
        if_pos (rfl : ('"' : Char) = '"'), ih rest]
      rfl
    · by_cases h2 : c = '\\'
      · subst h2
        rw [show escapeChar '\\' = ['\\', '\\'] from rfl]
        simp only [List.cons_append, List.nil_append]
        rw [parseStringBody.eq_def]
        dsimp only
        rw [if_neg (by decide : ¬ ('\\' : Char) = '"'),
          if_pos (rfl : ('\\' : Char) = '\\'),
          if_neg (by decide : ¬ ('\\' : Char) = '"'),
          if_pos (rfl : ('\\' : Char) = '\\'), ih rest]
        rfl
      · by_cases h3 : c = '\n'
        · subst h3
          rw [show escapeChar '\n' = ['\\', 'n'] from rfl]
          simp only [List.cons_append, List.nil_append]
          rw [parseStringBody.eq_def]
          dsimp only
          rw [if_neg (by decide : ¬ ('\\' : Char) = '"'),
            if_pos (rfl : ('\\' : Char) = '\\'),
            if_neg (by decide : ¬ ('n' : Char) = '"'),
            if_neg (by decide : ¬ ('n' : Char) = '\\'),
            if_neg (by decide : ¬ ('n' : Char) = '/'),
            if_pos (rfl : ('n' : Char) = 'n'), ih rest]
          rfl
        · by_cases h4 : c = '\t'
          · subst h4
            rw [show escapeChar '\t' = ['\\', 't'] from rfl]
            simp only [List.cons_append, List.nil_append]
            rw [parseStringBody.eq_def]
            dsimp only
            rw [if_neg (by decide : ¬ ('\\' : Char) = '"'),
              if_pos (rfl : ('\\' : Char) = '\\'),
              if_neg (by decide : ¬ ('t' : Char) = '"'),
              if_neg (by decide : ¬ ('t' : Char) = '\\'),
              if_neg (by decide : ¬ ('t' : Char) = '/'),
              if_neg (by decide : ¬ ('t' : Char) = 'n'),
              if_pos (rfl : ('t' : Char) = 't'), ih rest]
            rfl
          · by_cases h5 : c = '\r'
            · subst h5
              rw [show escapeChar '\r' = ['\\', 'r'] from rfl]
              simp only [List.cons_append, List.nil_append]
              rw [parseStringBody.eq_def]
              dsimp only
              rw [if_neg (by decide : ¬ ('\\' : Char) = '"'),
                if_pos (rfl : ('\\' : Char) = '\\'),
                if_neg (by decide : ¬ ('r' : Char) = '"'),
                if_neg (by decide : ¬ ('r' : Char) = '\\'),
                if_neg (by decide : ¬ ('r' : Char) = '/'),
                if_neg (by decide : ¬ ('r' : Char) = 'n'),
                if_neg (by decide : ¬ ('r' : Char) = 't'),
                if_pos (rfl : ('r' : Char) = 'r'), ih rest]
              rfl
            · by_cases h6 : c = '\x08'
              · subst h6
                rw [show escapeChar '\x08' = ['\\', 'b'] from rfl]
                simp only [List.cons_append, List.nil_append]
                rw [parseStringBody.eq_def]
                dsimp only
                rw [if_neg (by decide : ¬ ('\\' : Char) = '"'),
                  if_pos (rfl : ('\\' : Char) = '\\'),
                  if_neg (by decide : ¬ ('b' : Char) = '"'),
                  if_neg (by decide : ¬ ('b' : Char) = '\\'),
                  if_neg (by decide : ¬ ('b' : Char) = '/'),
                  if_neg (by decide : ¬ ('b' : Char) = 'n'),
                  if_neg (by decide : ¬ ('b' : Char) = 't'),
                  if_neg (by decide : ¬ ('b' : Char) = 'r'),
                  if_pos (rfl : ('b' : Char) = 'b'), ih rest]
                rfl
              · by_cases h7 : c = '\x0c'
                · subst h7
                  rw [show escapeChar '\x0c' = ['\\', 'f'] from rfl]
                  simp only [List.cons_append, List.nil_append]
                  rw [parseStringBody.eq_def]
                  dsimp only
                  rw [if_neg (by decide : ¬ ('\\' : Char) = '"'),
                    if_pos (rfl : ('\\' : Char) = '\\'),
                    if_neg (by decide : ¬ ('f' : Char) = '"'),
                    if_neg (by decide : ¬ ('f' : Char) = '\\'),
                    if_neg (by decide : ¬ ('f' : Char) = '/'),
                    if_neg (by decide : ¬ ('f' : Char) = 'n'),
                    if_neg (by decide : ¬ ('f' : Char) = 't'),
                    if_neg (by decide : ¬ ('f' : Char) = 'r'),
                    if_neg (by decide : ¬ ('f' : Char) = 'b'),
                    if_pos (rfl : ('f' : Char) = 'f'), ih rest]
                  rfl
                · by_cases h8 : c.toNat < 32
                  · rw [show escapeChar c
                        = ['\\', 'u', '0', '0', hexDigitChar (c.toNat / 16),
                            hexDigitChar (c.toNat % 16)] from by
                      simp [escapeChar, h1, h2, h3, h4, h5, h6, h7, h8]]
                    have hhi : parseHex (hexDigitChar (c.toNat / 16))
                        = some (c.toNat / 16) :=
                      parseHex_hexDigitChar _ (by omega)
                    have hlo : parseHex (hexDigitChar (c.toNat % 16))
                        = some (c.toNat % 16) :=
                      parseHex_hexDigitChar _ (by omega)
                    have h0 : parseHex '0' = some 0 := by decide
                    simp only [List.cons_append, List.nil_append]
                    rw [parseStringBody.eq_def]
                    dsimp only
                    rw [if_neg (by decide : ¬ ('\\' : Char) = '"'),
                      if_pos (rfl : ('\\' : Char) = '\\'),
                      if_neg (by decide : ¬ ('u' : Char) = '"'),
                      if_neg (by decide : ¬ ('u' : Char) = '\\'),
                      if_neg (by decide : ¬ ('u' : Char) = '/'),
                      if_neg (by decide : ¬ ('u' : Char) = 'n'),
                      if_neg (by decide : ¬ ('u' : Char) = 't'),
                      if_neg (by decide : ¬ ('u' : Char) = 'r'),
                      if_neg (by decide : ¬ ('u' : Char) = 'b'),
                      if_neg (by decide : ¬ ('u' : Char) = 'f'),
                      if_pos (rfl : ('u' : Char) = 'u'),
                      h0, hhi, hlo]
                    dsimp only
                    rw [ih rest]
                    simp only [Option.map_some']
                    rw [show ((0 * 16 + 0) * 16 + c.toNat / 16) * 16 + c.toNat % 16
                        = c.toNat from by omega]
                    rw [Char.ofNat_toNat]
                  · rw [show escapeChar c = [c] from by
                      simp [escapeChar, h1, h2, h3, h4, h5, h6, h7, h8]]
                    rw [List.singleton_append, parseStringBody.eq_def]
                    dsimp only
                    rw [if_neg h1, if_neg h2, ih rest]
                    simp only [Option.map_some']

-- Head characters of stringified values

theorem fuelV_pos (v : JVal) : 1 ≤ fuelV v := by
  cases v <;> simp [fuelV]

theorem numStart_guards {c : Char} (h : c = '-' ∨ isDigit c = true) :
    ¬c = 'n' ∧ ¬c = 't' ∧ ¬c = 'f' ∧ ¬c = '"' ∧ ¬c = '[' ∧ ¬c = '\x7b' := by
  have ht := numStart_toNat h
  refine ⟨char_ne_of_toNat_ne ?_, char_ne_of_toNat_ne ?_, char_ne_of_toNat_ne ?_,
    char_ne_of_toNat_ne ?_, char_ne_of_toNat_ne ?_, char_ne_of_toNat_ne ?_⟩
  · have hx : ('n').toNat = 110 := rfl
    omega
  · have hx : ('t').toNat = 116 := rfl
    omega
  · have hx : ('f').toNat = 102 := rfl
    omega
  · have hx : ('"').toNat = 34 := rfl
    omega
  · have hx : ('[').toNat = 91 := rfl
    omega
  · have hx : ('\x7b').toNat = 123 := rfl
    omega

theorem stringify_head (v : JVal) :
    ∃ c t, stringifyV v = c :: t ∧ isWs c = false ∧ ¬c = ']' ∧ ¬c = '\x7d' := by
  cases v with
  | null =>
    exact ⟨'n', ['u', 'l', 'l'], by simp [stringifyV], by decide, by decide, by decide⟩
  | boolv b =>
    cases b with
    | true =>
      exact ⟨'t', ['r', 'u', 'e'], by simp [stringifyV], by decide, by decide,
        by decide⟩
    | false =>
      exact ⟨'f', ['a', 'l', 's', 'e'], by simp [stringifyV], by decide, by decide,
        by decide⟩
  | num n =>
    obtain ⟨c, t, heq, hc⟩ := intToChars_head n
    have ht := numStart_toNat hc
    refine ⟨c, t, by simp [stringifyV, heq], numStart_not_ws hc,
      char_ne_of_toNat_ne ?_, char_ne_of_toNat_ne ?_⟩
    · have hx : (']').toNat = 93 := rfl
      omega
    · have hx : ('\x7d').toNat = 125 := rfl
      omega
  | str s =>
    exact ⟨'"', escapeString s.data ++ ['"'], by simp [stringifyV], by decide,
      by decide, by decide⟩
  | arr xs =>
    exact ⟨'[', stringifyArr xs ++ [']'], by simp [stringifyV], by decide,
      by decide, by decide⟩
  | obj fs =>
    exact ⟨'\x7b', stringifyObj fs ++ ['\x7d'], by simp [stringifyV], by decide,
      by decide, by decide⟩

-- Fuel bounds: the fuel measures are dominated by the stringified length

mutual

theorem fuelV_le (v : JVal) : fuelV v ≤ (stringifyV v).length := by
  cases v with
  | null => simp [fuelV, stringifyV]
  | boolv b => cases b <;> simp [fuelV, stringifyV]
  | num n =>
    obtain ⟨c, t, heq, _⟩ := intToChars_head n
    simp [fuelV, stringifyV, heq]
  | str s => simp [fuelV, stringifyV]
  | arr xs =>
    have h := fuelItems_le xs
    simp only [fuelV, stringifyV, List.length_cons, List.length_append,
      List.length_singleton]
    omega
  | obj fs =>
    have h := fuelFields_le fs
    simp only [fuelV, stringifyV, List.length_cons, List.length_append,
      List.length_singleton]
    omega

theorem fuelItems_le (xs : List JVal) :
    fuelItems xs ≤ (stringifyArr xs).length + 1 := by
  cases xs with
  | nil => simp [fuelItems, stringifyArr]
  | cons x xs2 =>
    cases xs2 with
    | nil =>
      have h := fuelV_le x
      simp only [fuelItems, stringifyArr]
      omega
    | cons y r =>
      have h1 := fuelV_le x
      have h2 := fuelItems_le (y :: r)
      simp only [fuelItems, stringifyArr, List.length_append, List.length_cons]
        at h2 ⊢
      omega

theorem fuelFields_le (fs : List (String × JVal)) :
    fuelFields fs ≤ (stringifyObj fs).length + 1 := by
  cases fs with
  | nil => simp [fuelFields, stringifyObj]
  | cons f fs2 =>
    obtain ⟨k, v⟩ := f
    cases fs2 with
    | nil =>
      have h := fuelV_le v
      simp only [fuelFields, stringifyObj, List.length_cons, List.length_append]
      omega
    | cons g r =>
      have h1 := fuelV_le v
      have h2 := fuelFields_le (g :: r)
      simp only [fuelFields, stringifyObj, List.length_cons, List.length_append]
        at h2 ⊢
      omega

end

-- The parser inverts the stringifier, given enough fuel

theorem parse_stringify : ∀ fuel : Nat,
    (∀ v rest, fuelV v ≤ fuel → closerOk rest = true →
      parseV fuel (stringifyV v ++ rest) = some (v, rest)) ∧
    (∀ x xs rest, fuelItems (x :: xs) ≤ fuel → closerOk rest = true →
      parseItems fuel (stringifyArr (x :: xs) ++ ']' :: rest) = some (x :: xs, rest)) ∧
    (∀ k v fs rest, fuelFields ((k, v) :: fs) ≤ fuel → closerOk rest = true →
      parseFields fuel (stringifyObj ((k, v) :: fs) ++ '\x7d' :: rest)
        = some ((k, v) :: fs, rest)) := by
  intro fuel
  induction fuel with
  | zero =>
    refine ⟨?_, ?_, ?_⟩
    · intro v rest hf _
      exact absurd hf (by have := fuelV_pos v; omega)
    · intro x xs rest hf _
      have h1 : fuelItems (x :: xs) = 1 + fuelV x + fuelItems xs := by
        simp [fuelItems]
      exact absurd hf (by omega)
    · intro k v fs rest hf _
      have h1 : fuelFields ((k, v) :: fs) = 1 + fuelV v + fuelFields fs := by
        simp [fuelFields]
      exact absurd hf (by omega)
  | succ F ih =>
    obtain ⟨ihP, ihQ, ihR⟩ := ih
    refine ⟨?_, ?_, ?_⟩
    · intro v rest hf hrest
      cases v with
      | null =>
        rw [show stringifyV .null = ['n', 'u', 'l', 'l'] from by simp [stringifyV]]
        simp only [List.cons_append, List.nil_append]
        rw [parseV.eq_def]
        dsimp only
        rw [skipWs_cons _ (by decide : isWs 'n' = false)]
        dsimp only
        rw [if_pos rfl]
        rfl
      | boolv b =>
        cases b with
        | true =>
          rw [show stringifyV (.boolv true) = ['t', 'r', 'u', 'e'] from by
            simp [stringifyV]]
          simp only [List.cons_append, List.nil_append]
          rw [parseV.eq_def]
          dsimp only
          rw [skipWs_cons _ (by decide : isWs 't' = false)]
          dsimp only
          rw [if_neg (by decide : ¬ ('t' : Char) = 'n'),
            if_pos (rfl : ('t' : Char) = 't')]
          rfl
        | false =>
          rw [show stringifyV (.boolv false) = ['f', 'a', 'l', 's', 'e'] from by
            simp [stringifyV]]
          simp only [List.cons_append, List.nil_append]
          rw [parseV.eq_def]
          dsimp only
          rw [skipWs_cons _ (by decide : isWs 'f' = false)]
          dsimp only
          rw [if_neg (by decide : ¬ ('f' : Char) = 'n'),
            if_neg (by decide : ¬ ('f' : Char) = 't'),
            if_pos (rfl : ('f' : Char) = 'f')]
          rfl
      | num n =>
        rw [show stringifyV (.num n) = intToChars n from by simp [stringifyV]]
        obtain ⟨c, t, heq, hc⟩ := intToChars_head n
        obtain ⟨g1, g2, g3, g4, g5, g6⟩ := numStart_guards hc
        rw [heq, List.cons_append, parseV.eq_def]
        dsimp only
        rw [skipWs_cons _ (numStart_not_ws hc)]
        dsimp only
        rw [if_neg g1, if_neg g2, if_neg g3, if_neg g4, if_neg g5, if_neg g6]
        rw [← List.cons_append, ← heq,
          parseNumber_intToChars n rest (headNotDigit_of_closerOk hrest)]
        rfl
      | str s =>
        rw [show stringifyV (.str s) = '"' :: (escapeString s.data ++ ['"']) from by
          simp [stringifyV]]
        simp only [List.cons_append, List.append_assoc, List.singleton_append,
          List.nil_append]
        rw [parseV.eq_def]
        dsimp only
        rw [skipWs_cons _ (by decide : isWs '"' = false)]
        dsimp only
        rw [if_neg (by decide : ¬ ('"' : Char) = 'n'),
          if_neg (by decide : ¬ ('"' : Char) = 't'),
          if_neg (by decide : ¬ ('"' : Char) = 'f'),
          if_pos (rfl : ('"' : Char) = '"'),
          parseStringBody_escape s.data rest]
        rfl
      | arr xs =>
        rw [show stringifyV (.arr xs) = '[' :: (stringifyArr xs ++ [']']) from by
          simp [stringifyV]]
        simp only [List.cons_append, List.append_assoc, List.singleton_append,
          List.nil_append]
        rw [parseV.eq_def]
        dsimp only
        rw [skipWs_cons _ (by decide : isWs '[' = false)]
        dsimp only
        rw [if_neg (by decide : ¬ ('[' : Char) = 'n'),
          if_neg (by decide : ¬ ('[' : Char) = 't'),
          if_neg (by decide : ¬ ('[' : Char) = 'f'),
          if_neg (by decide : ¬ ('[' : Char) = '"'),
          if_pos (rfl : ('[' : Char) = '[')]
        cases xs with
        | nil =>
          rw [show stringifyArr [] = [] from by simp [stringifyArr]]
          rw [List.nil_append, skipWs_cons _ (by decide : isWs ']' = false)]
          dsimp only
          rw [if_pos rfl]
        | cons x xs2 =>
          have hfv : fuelV (.arr (x :: xs2)) = 1 + fuelItems (x :: xs2) := by
            simp [fuelV]
          obtain ⟨c0, t0, hh, hws0, hne1, _⟩ := stringify_head x
          have harr : ∃ t1, stringifyArr (x :: xs2) = c0 :: t1 := by
            cases xs2 with
            | nil => exact ⟨t0, by simp [stringifyArr, hh]⟩
            | cons y r =>
              exact ⟨t0 ++ ',' :: stringifyArr (y :: r), by simp [stringifyArr, hh]⟩
          obtain ⟨t1, harr⟩ := harr
          rw [harr, List.cons_append, skipWs_cons _ hws0]
          dsimp only
          rw [if_neg hne1, ← List.cons_append, ← harr,
            ihQ x xs2 rest (by omega) hrest]
          rfl
      | obj fs =>
        rw [show stringifyV (.obj fs) = '\x7b' :: (stringifyObj fs ++ ['\x7d'])
            from by simp [stringifyV]]
        simp only [List.cons_append, List.append_assoc, List.singleton_append,
          List.nil_append]
        rw [parseV.eq_def]
        dsimp only
        rw [skipWs_cons _ (by decide : isWs '\x7b' = false)]
        dsimp only
        rw [if_neg (by decide : ¬ ('\x7b' : Char) = 'n'),
          if_neg (by decide : ¬ ('\x7b' : Char) = 't'),
          if_neg (by decide : ¬ ('\x7b' : Char) = 'f'),
          if_neg (by decide : ¬ ('\x7b' : Char) = '"'),
          if_neg (by decide : ¬ ('\x7b' : Char) = '['),
          if_pos (rfl : ('\x7b' : Char) = '\x7b')]
        cases fs with
        | nil =>
          rw [show stringifyObj [] = [] from by simp [stringifyObj]]
          rw [List.nil_append, skipWs_cons _ (by decide : isWs '\x7d' = false)]
          dsimp only
          rw [if_pos rfl]
        | cons f fs2 =>
          obtain ⟨k, v⟩ := f
          have hfv : fuelV (.obj ((k, v) :: fs2)) = 1 + fuelFields ((k, v) :: fs2) := by
            simp [fuelV]
          have hobj : ∃ t1, stringifyObj ((k, v) :: fs2) = '"' :: t1 := by
            cases fs2 with
            | nil =>
              exact ⟨escapeString k.data ++ '"' :: ':' :: stringifyV v, by
                simp [stringifyObj]⟩
            | cons g r =>
              exact ⟨(escapeString k.data ++ '"' :: ':' :: stringifyV v)
                  ++ ',' :: stringifyObj (g :: r), by
                simp [stringifyObj]⟩
          obtain ⟨t1, hobj⟩ := hobj
          rw [hobj, List.cons_append, skipWs_cons _ (by decide : isWs '"' = false)]
          dsimp only
          rw [if_neg (by decide : ¬ ('"' : Char) = '\x7d'), ← List.cons_append,
            ← hobj, ihR k v fs2 rest (by omega) hrest]
          rfl
    · intro x xs rest hf hrest
      have hfi : fuelItems (x :: xs) = 1 + fuelV x + fuelItems xs := by
        simp [fuelItems]
      have hpos := fuelV_pos x
      rw [parseItems.eq_def]
      dsimp only
      cases xs with
      | nil =>
        rw [show stringifyArr [x] = stringifyV x from by simp [stringifyArr]]
        rw [ihP x (']' :: rest) (by omega) rfl]
        dsimp only
        rw [skipWs_cons _ (by decide : isWs ']' = false)]
        dsimp only
        rw [if_neg (by decide : ¬ (']' : Char) = ','), if_pos rfl]
      | cons y r =>
        have hfi2 : fuelItems (y :: r) = 1 + fuelV y + fuelItems r := by
          simp [fuelItems]
        rw [show stringifyArr (x :: y :: r)
            = stringifyV x ++ ',' :: stringifyArr (y :: r) from by
          simp [stringifyArr]]
        simp only [List.append_assoc, List.cons_append]
        rw [ihP x (',' :: (stringifyArr (y :: r) ++ ']' :: rest)) (by omega) rfl]
        dsimp only
        rw [skipWs_cons _ (by decide : isWs ',' = false)]
        dsimp only
        rw [if_pos rfl, ihQ y r rest (by omega) hrest]
        rfl
    · intro k v fs rest hf hrest
      have hff : fuelFields ((k, v) :: fs) = 1 + fuelV v + fuelFields fs := by
        simp [fuelFields]
      have hpos := fuelV_pos v
      rw [parseFields.eq_def]
      dsimp only
      cases fs with
      | nil =>
        rw [show stringifyObj [(k, v)]
            = '"' :: (escapeString k.data ++ '"' :: ':' :: stringifyV v) from by
          simp [stringifyObj]]
        simp only [List.cons_append, List.append_assoc]
        rw [skipWs_cons _ (by decide : isWs '"' = false)]
        dsimp only
        rw [if_pos rfl,
          parseStringBody_escape k.data (':' :: (stringifyV v ++ '\x7d' :: rest))]
        dsimp only
        rw [skipWs_cons _ (by decide : isWs ':' = false)]
        dsimp only
        rw [if_pos rfl, ihP v ('\x7d' :: rest) (by omega) rfl]
        dsimp only
        rw [skipWs_cons _ (by decide : isWs '\x7d' = false)]
        dsimp only
        rw [if_neg (by decide : ¬ ('\x7d' : Char) = ','), if_pos rfl]
      | cons f fs2 =>
        obtain ⟨k2, v2⟩ := f
        have hff2 : fuelFields ((k2, v2) :: fs2) = 1 + fuelV v2 + fuelFields fs2 := by
          simp [fuelFields]
        rw [show stringifyObj ((k, v) :: (k2, v2) :: fs2)
            = ('"' :: (escapeString k.data ++ '"' :: ':' :: stringifyV v))
              ++ ',' :: stringifyObj ((k2, v2) :: fs2) from by
          simp [stringifyObj]]
        simp only [List.cons_append, List.append_assoc]
        rw [skipWs_cons _ (by decide : isWs '"' = false)]
        dsimp only
        rw [if_pos rfl,
          parseStringBody_escape k.data
            (':' :: (stringifyV v
              ++ ',' :: (stringifyObj ((k2, v2) :: fs2) ++ '\x7d' :: rest)))]
        dsimp only
        rw [skipWs_cons _ (by decide : isWs ':' = false)]
        dsimp only
        rw [if_pos rfl,
          ihP v (',' :: (stringifyObj ((k2, v2) :: fs2) ++ '\x7d' :: rest))
            (by omega) rfl]
        dsimp only
        rw [skipWs_cons _ (by decide : isWs ',' = false)]
        dsimp only
        rw [if_pos rfl, ihR k2 v2 fs2 rest (by omega) hrest]
        rfl

theorem parseJson_stringify (v : JVal) : parseJson (stringifyV v) = some v := by
  have hb := fuelV_le v
  have hP := (parse_stringify ((stringifyV v).length + 1)).1 v [] (by omega) rfl
  rw [List.append_nil] at hP
  simp only [parseJson]
  rw [hP]
  rfl

-- UTF-8 round trip

theorem utf8Step_encodeChar (c : Char) (bs : List Nat) :
    utf8Step (utf8EncodeChar c.toNat ++ bs) = (c, bs) := by
  by_cases h1 : c.toNat < 0x80
  · rw [show utf8EncodeChar c.toNat = [c.toNat] from by simp [utf8EncodeChar, h1]]
    rw [List.singleton_append]
    dsimp only [utf8Step]
    rw [if_pos h1, Char.ofNat_toNat]
  · by_cases h2 : c.toNat < 0x800
    · rw [show utf8EncodeChar c.toNat
          = [0xC0 + c.toNat / 64, 0x80 + c.toNat % 64] from by
        simp [utf8EncodeChar, h1, h2]]
      simp only [List.cons_append, List.nil_append]
      dsimp only [utf8Step]
      have hb1 : ¬(0xC0 + c.toNat / 64 < 0x80) := by omega
      have hb2 : ¬(0xC0 + c.toNat / 64 < 0xC0) := by omega
      have hb3 : 0xC0 + c.toNat / 64 < 0xE0 := by omega
      have hcont : isCont (0x80 + c.toNat % 64) = true := by
        simp only [isCont, Bool.and_eq_true, Nat.ble_eq, Nat.blt_eq]
        omega
      rw [if_neg hb1, if_neg hb2, if_pos hb3, if_pos hcont]
      rw [show (0xC0 + c.toNat / 64 - 0xC0) * 64 + (0x80 + c.toNat % 64 - 0x80)
          = c.toNat from by omega]
      rw [Char.ofNat_toNat]
    · by_cases h3 : c.toNat < 0x10000
      · rw [show utf8EncodeChar c.toNat
            = [0xE0 + c.toNat / 4096, 0x80 + (c.toNat / 64) % 64,
                0x80 + c.toNat % 64] from by
          simp [utf8EncodeChar, h1, h2, h3]]
        simp only [List.cons_append, List.nil_append]
        dsimp only [utf8Step]
        have hb1 : ¬(0xE0 + c.toNat / 4096 < 0x80) := by omega
        have hb2 : ¬(0xE0 + c.toNat / 4096 < 0xC0) := by omega
        have hb3 : ¬(0xE0 + c.toNat / 4096 < 0xE0) := by omega
        have hb4 : 0xE0 + c.toNat / 4096 < 0xF0 := by omega
        have hcont : (isCont (0x80 + (c.toNat / 64) % 64)
            && isCont (0x80 + c.toNat % 64)) = true := by
          simp only [isCont, Bool.and_eq_true, Nat.ble_eq, Nat.blt_eq]
          omega
        rw [if_neg hb1, if_neg hb2, if_neg hb3, if_pos hb4, if_pos hcont]
        rw [show (0xE0 + c.toNat / 4096 - 0xE0) * 4096
              + (0x80 + (c.toNat / 64) % 64 - 0x80) * 64
              + (0x80 + c.toNat % 64 - 0x80)
            = c.toNat from by omega]
        rw [Char.ofNat_toNat]
      · rw [show utf8EncodeChar c.toNat
            = [0xF0 + c.toNat / 262144, 0x80 + (c.toNat / 4096) % 64,
                0x80 + (c.toNat / 64) % 64, 0x80 + c.toNat % 64] from by
          simp [utf8EncodeChar, h1, h2, h3]]
        simp only [List.cons_append, List.nil_append]
        dsimp only [utf8Step]
        have hb1 : ¬(0xF0 + c.toNat / 262144 < 0x80) := by omega
        have hb2 : ¬(0xF0 + c.toNat / 262144 < 0xC0) := by omega
        have hb3 : ¬(0xF0 + c.toNat / 262144 < 0xE0) := by omega
        have hb4 : ¬(0xF0 + c.toNat / 262144 < 0xF0) := by omega
        have hcont : ((isCont (0x80 + (c.toNat / 4096) % 64)
            && isCont (0x80 + (c.toNat / 64) % 64))
              && isCont (0x80 + c.toNat % 64)) = true := by
          simp only [isCont, Bool.and_eq_true, Nat.ble_eq, Nat.blt_eq]
          omega
        rw [if_neg hb1, if_neg hb2, if_neg hb3, if_neg hb4, if_pos hcont]
        rw [show (0xF0 + c.toNat / 262144 - 0xF0) * 262144
              + (0x80 + (c.toNat / 4096) % 64 - 0x80) * 4096
              + (0x80 + (c.toNat / 64) % 64 - 0x80) * 64
              + (0x80 + c.toNat % 64 - 0x80)
            = c.toNat from by omega]
        rw [Char.ofNat_toNat]

theorem utf8EncodeChar_length_pos (n : Nat) : 0 < (utf8EncodeChar n).length := by
  simp only [utf8EncodeChar]
  split
  · simp
  · split
    · simp
    · split <;> simp

theorem utf8DecodeAux_encode : ∀ fuel cs, (utf8Encode cs).length ≤ fuel →
    utf8DecodeAux fuel (utf8Encode cs) = cs := by
  intro fuel
  induction fuel with
  | zero =>
    intro cs hlen
    cases cs with
    | nil => rfl
    | cons c cs2 =>
      exfalso
      have he : utf8Encode (c :: cs2) = utf8EncodeChar c.toNat ++ utf8Encode cs2 := by
        simp [utf8Encode]
      have hpos := utf8EncodeChar_length_pos c.toNat
      rw [he, List.length_append] at hlen
      omega
  | succ F ih =>
    intro cs hlen
    cases cs with
    | nil => rfl
    | cons c cs2 =>
      have he : utf8Encode (c :: cs2) = utf8EncodeChar c.toNat ++ utf8Encode cs2 := by
        simp [utf8Encode]
      have hpos := utf8EncodeChar_length_pos c.toNat
      rw [he]
      obtain ⟨b, t, hbt⟩ : ∃ b t,
          utf8EncodeChar c.toNat ++ utf8Encode cs2 = b :: t := by
        cases hE : utf8EncodeChar c.toNat with
        | nil =>
          rw [hE] at hpos
          simp at hpos
        | cons b t2 =>
          exact ⟨b, t2 ++ utf8Encode cs2, by rw [List.cons_append]⟩
      rw [hbt, utf8DecodeAux.eq_def]
      dsimp only
      rw [← hbt, utf8Step_encodeChar c (utf8Encode cs2)]
      dsimp only
      rw [ih cs2 (by rw [he, List.length_append] at hlen; omega)]

theorem utf8Decode_encode (cs : List Char) : utf8Decode (utf8Encode cs) = cs :=
  utf8DecodeAux_encode (utf8Encode cs).length cs (le_refl _)

/-- C10: `uint8ArrayToValue` is total (it is a plain function into an
option: the empty byte array and any bytes that fail to parse yield
`none`, never an exception), and it inverts `valueToUint8Array`: for
every JSON value `v`, decoding the UTF-8 bytes of `JSON.stringify v`
and parsing the result returns exactly `v`. -/
theorem C10_user_data_roundtrip :
    uint8ArrayToValue [] = none ∧
    ∀ v : JVal, uint8ArrayToValue (valueToUint8Array v) = some v := by
  refine ⟨rfl, ?_⟩
  intro v
  simp only [valueToUint8Array, uint8ArrayToValue]
  obtain ⟨c, t, hh, _, _, _⟩ := stringify_head v
  have hlen : ¬((utf8Encode (stringifyV v)).length = 0) := by
    rw [hh, show utf8Encode (c :: t) = utf8EncodeChar c.toNat ++ utf8Encode t
      from by simp [utf8Encode]]
    rw [List.length_append]
    have := utf8EncodeChar_length_pos c.toNat
    omega
  rw [if_neg hlen, utf8Decode_encode, parseJson_stringify]

end OdinSdk
